import Mathlib

/-!
Verification development for the MRML scene excerpt (vtkMRMLScene.cxx) and the
two pipeline headers (vtkDataObject.h, vtkHyperTreeGridAlgorithm.h).

The scene is shallowly embedded: VTK object pointers become natural numbers
(`Nat`), the mutable object store becomes an explicit heap `Nat → Node`, and
`vtkCollection` values become lists of pointers.  Every operation is translated
from `vtkMRMLScene.cxx`; event invocations (`InvokeEvent`, `Modified`) have no
observable effect on the embedded state and are dropped, and reference
counting (`Register`/`UnRegister`/`Delete`) is inapplicable to the explicit
heap.  `std::map` values are embedded as key-sorted association lists, matching
the C++ key-ordered iteration.
-/

namespace MRML

/-- The state of one `vtkMRMLNode` object, restricted to the attributes the
scene code observes: `GetID`/`SetID` (`id`, NULL embedded as `none`),
`GetName`/`SetName`, `GetClassName`, `GetNodeTagName`, `GetSingletonTag`,
`GetAddToScene`, `GetSaveWithScene`, `GetIndent`, the output of
`WriteXML`/`WriteNodeBodyXML` (abstracted as the node-supplied strings
`attrsXML`/`bodyXML`), a `wasReset` marker for `Reset`, and an abstract
payload `content` standing for all remaining node attributes. -/
structure Node where
  id : Option String
  name : Option String
  className : String
  tagName : String
  singletonTag : Option String
  addToScene : Bool
  saveWithScene : Bool
  indent : Int
  attrsXML : String
  bodyXML : String
  wasReset : Bool
  content : Nat
deriving DecidableEq, Repr

/-- A freshly constructed node, as produced by `CreateNodeInstance` before any
copy: no ID, no name, flags at their `vtkMRMLNode` constructor defaults
(`AddToScene = 1`, `SaveWithScene = 1`). -/
def defaultNode : Node :=
  { id := none, name := none, className := "", tagName := "",
    singletonTag := none, addToScene := true, saveWithScene := true,
    indent := 0, attrsXML := "", bodyXML := "", wasReset := false, content := 0 }

/-- The key under which a node is entered into an id-indexed `std::map`
(`std::string(node->GetID())`).  A NULL ID is undefined behaviour in the
source; it is embedded as the empty string, and every theorem that traverses
such a map restricts to states whose relevant nodes carry an ID. -/
def idKey (n : Node) : String := n.id.getD ""

/-- Modelled from the spec: `vtkMRMLNode::CopyWithSceneWithSingleModifiedEvent`
is not under src/.  Per the spec's undo/redo description it copies the source
node's contents into the target; the in-src callers (`CopyNodeInUndoStack`
builds the undo-stack snapshots whose `GetID()` keys `Undo`'s `undoMap`)
require that the source's ID is carried along when the source has one, which
matches `vtkMRMLNode::CopyWithScene` (`if (node->GetID()) SetID(...)` followed
by `Copy`, which copies everything else). -/
def copyWithScene (src tgt : Node) : Node :=
  { src with id := match src.id with | some i => some i | none => tgt.id }

/-- Modelled from the spec: `vtkMRMLNode::IsA` is VTK RTTI, not under src/.
The class hierarchy of the concrete node types is not part of the excerpt, so
`IsA` is embedded as exact class-name equality. -/
def isA (n : Node) (cls : String) : Bool := n.className == cls

/-- Modelled from the spec: `vtkMRMLNode::Reset` is not under src/; it restores
the node to an initial state.  Embedded abstractly as setting the `wasReset`
marker. -/
def resetNode (n : Node) : Node := { n with wasReset := true }

/-- The `if (n->GetName() == NULL || n->GetName()[0] == '\x30')`-style name
fixup at the end of `AddNodeNoNotify`: an absent or empty name is replaced by
the node's ID. -/
def nameFix (n : Node) : Node :=
  if n.name = none ∨ n.name = some "" then { n with name := n.id } else n

/-! ### `std::map` embedded as a key-sorted association list -/

/-- Insertion (`m[k] = v`) into a key-sorted association list. -/
def mapInsert {α : Type} (k : String) (v : α) : List (String × α) → List (String × α)
  | [] => [(k, v)]
  | e :: t =>
    if k < e.1 then (k, v) :: e :: t
    else if k = e.1 then (k, v) :: t
    else e :: mapInsert k v t

/-- Lookup (`m.find(k)`). -/
def mapFind {α : Type} (m : List (String × α)) (k : String) : Option α :=
  (m.find? (fun e => e.1 == k)).map Prod.snd

/-- The strict key-sortedness invariant of the embedded `std::map`. -/
def KeysSorted {α : Type} (m : List (String × α)) : Prop :=
  m.Pairwise (fun a b => a.1 < b.1)

/-! ### The scene state -/

/-- The undo/redo-independent part of a `vtkMRMLScene`: the node heap, the
`CurrentScene` collection, `UniqueIDByClass`, the reference-tracking lists
`ReferencedIDs`/`ReferencingNodes`, `ReferencedIDChanges`, and a pointer
allocator `nextPtr` standing for the C++ address space (every allocation made
by the embedded code uses `nextPtr` and bumps it). -/
structure SceneCore where
  heap : Nat → Node
  currentScene : List Nat
  uniqueIDByClass : List (String × Nat)
  referencedIDs : List String
  referencingNodes : List Nat
  referencedIDChanges : List (String × String)
  nextPtr : Nat

/-- The scene right after the `vtkMRMLScene` constructor, as far as the
embedded state is concerned: empty collection, empty maps and lists.  (The
constructor's registration of built-in node classes only populates
`RegisteredNodeClasses`, which no claim observes.) -/
def emptyCore : SceneCore :=
  { heap := fun _ => defaultNode, currentScene := [], uniqueIDByClass := [],
    referencedIDs := [], referencingNodes := [], referencedIDChanges := [],
    nextPtr := 0 }

/-- `vtkMRMLScene::GetNodeByID`.  `UpdateNodeIDs` rebuilds the `NodeIDs` map
from the collection in scene order, so a duplicated key is won by the later
node; the lookup is embedded as the last matching node.  The `MTime`-based
cache of `UpdateNodeIDs` is embedded as an always-fresh rebuild; the two
coincide except while a node's ID has been changed with no intervening
collection modification, a window in which no embedded operation queries the
map. -/
def getNodeByID (c : SceneCore) (id : Option String) : Option Nat :=
  match id with
  | none => none
  | some i => (c.currentScene.filter (fun p => idKey (c.heap p) == i)).getLast?

/-- The unbounded `for (index = hint; ; index++)` search of
`GetUniqueIDIndexByClassFromIndex`, with explicit fuel.  The loop terminates
because the scene holds finitely many IDs; `currentScene.length + 1` probes
suffice (pigeonhole), which the development proves. -/
def firstFreeAux (c : SceneCore) (cls : String) : Nat → Nat → Nat
  | 0, i => i
  | fuel + 1, i =>
    if getNodeByID c (some (cls ++ toString i)) = none then i
    else firstFreeAux c cls fuel (i + 1)

/-- `vtkMRMLScene::GetUniqueIDIndexByClassFromIndex`: the first index at or
above `hint` such that `className << index` is not an ID in the scene. -/
def getUniqueIDIndexByClassFromIndex (c : SceneCore) (cls : String) (hint : Nat) : Nat :=
  firstFreeAux c cls (c.currentScene.length + 1) hint

/-- `vtkMRMLScene::GetUniqueIDIndexByClass`: looks up the per-class hint
(default 1), finds the first free index from it, and stores `index + 1` back
as the new hint.  Returns the updated scene and the index. -/
def getUniqueIDIndexByClass (c : SceneCore) (cls : String) : SceneCore × Nat :=
  let hint := (mapFind c.uniqueIDByClass cls).getD 1
  let index := getUniqueIDIndexByClassFromIndex c cls hint
  ({ c with uniqueIDByClass := mapInsert cls (index + 1) c.uniqueIDByClass }, index)

/-- `vtkMRMLScene::RemoveNodeReferences`: rebuilds the reference-tracking
lists keeping exactly the entries whose referencing node and `n` both have
IDs and those IDs differ (`strcmp(...) != 0`). -/
def removeNodeReferences (c : SceneCore) (p : Nat) : SceneCore :=
  let kept := (c.referencedIDs.zip c.referencingNodes).filter (fun e =>
    match (c.heap e.2).id, (c.heap p).id with
    | some a, some b => a != b
    | _, _ => false)
  { c with referencedIDs := kept.map Prod.fst, referencingNodes := kept.map Prod.snd }

/-- The singleton scan of `AddNodeNoNotify`: the first node of `n`'s class in
scene order whose singleton tag is non-NULL and `strcmp`-equal to `n`'s
(`GetNthNodeByClass` re-walks the collection, so this is the class-filtered
scene in order). -/
def findSingleton (c : SceneCore) (n : Node) : Option Nat :=
  c.currentScene.find? (fun q =>
    isA (c.heap q) n.className &&
      match (c.heap q).singletonTag, n.singletonTag with
      | some a, some b => a == b
      | _, _ => false)

/-- The tail of `AddNodeNoNotify` after the singleton check: fresh-ID
assignment when the ID is NULL, empty or already used (recording the change in
`ReferencedIDChanges` when it differs), name fixup, and append to the
collection.  (`SetSceneRootDir`/`SetScene` touch state outside the embedding.) -/
def addNodeFinish (c : SceneCore) (p : Nat) : SceneCore × Option Nat :=
  let n := c.heap p
  let idBad : Bool :=
    match n.id with
    | none => true
    | some i => i == "" || (getNodeByID c (some i)).isSome
  let step : SceneCore × Node :=
    if idBad then
      let oldID := idKey n
      let r := getUniqueIDIndexByClass c n.className
      let newID := n.className ++ toString r.2
      let n1 : Node := { n with id := some newID }
      let c1 : SceneCore := { r.1 with heap := fun x => if x = p then n1 else r.1.heap x }
      (if oldID ≠ newID then
        { c1 with referencedIDChanges := mapInsert oldID newID c1.referencedIDChanges }
       else c1, n1)
    else (c, n)
  let n2 := nameFix step.2
  ({ step.1 with heap := fun x => if x = p then n2 else step.1.heap x,
                 currentScene := step.1.currentScene ++ [p] }, some p)

/-- `vtkMRMLScene::AddNodeNoNotify`. -/
def addNodeNoNotify (c : SceneCore) (p : Nat) : SceneCore × Option Nat :=
  let n := c.heap p
  if !n.addToScene then (c, none)
  else
    match n.singletonTag with
    | some _ =>
      match findSingleton c n with
      | some sn =>
        let c1 : SceneCore :=
          { c with heap := fun x => if x = sn then copyWithScene (c.heap p) (c.heap sn) else c.heap x }
        (removeNodeReferences c1 p, some sn)
      | none => addNodeFinish c p
    | none => addNodeFinish c p

/-- `vtkMRMLScene::AddNode`: the `AddToScene` guard, then `AddNodeNoNotify`
(the `NodeAddedEvent`/`Modified` calls carry no embedded state). -/
def addNode (c : SceneCore) (p : Nat) : SceneCore × Option Nat :=
  if !(c.heap p).addToScene then (c, none)
  else addNodeNoNotify c p

/-- Allocating a fresh node object with state `n` and handing it to `AddNode`,
the way every caller of `AddNode` constructs its argument. -/
def addNewNode (c : SceneCore) (n : Node) : SceneCore :=
  let p := c.nextPtr
  (addNode { c with heap := fun x => if x = p then n else c.heap x, nextPtr := p + 1 } p).1

/-- `vtkMRMLScene::RemoveNode`: removes the item from the collection
(`vtkCollection::RemoveItem` drops the first occurrence) and the node's
reference entries.  The per-node `UpdateReferences` sweep and the
`NodeRemovedEvent` touch only state outside the embedding. -/
def removeNode (c : SceneCore) (p : Nat) : SceneCore :=
  removeNodeReferences { c with currentScene := c.currentScene.erase p } p

/-! ### Undo / redo -/

/-- `std::map<std::string, vtkMRMLNode*>` population loop of `Undo`/`Redo`:
`m[node->GetID()] = node` over a collection in order. -/
def buildIdMap (h : Nat → Node) (l : List Nat) : List (String × Nat) :=
  l.foldl (fun m p => mapInsert (idKey (h p)) p m) []

/-- Result of the first `Undo`/`Redo` loop: the evolved scene state, the
evolved destination stack, and the collected `addNodes` list. -/
structure Phase1Out where
  core : SceneCore
  dst : List (List Nat)
  adds : List Nat

/-- `CopyNodeInRedoStack`/`CopyNodeInUndoStack`, acting on the top of the
destination stack `dst`: allocates a fresh node (`CreateNodeInstance`), deep
copies `cur` into it, and replaces every occurrence of `cur` in the stack top
by the copy (`ReplaceItem` at each matching index). -/
def copyNodeInStackTop (c : SceneCore) (dst : List (List Nat)) (cur : Nat) :
    SceneCore × List (List Nat) :=
  match dst.getLast? with
  | none => (c, dst)
  | some top =>
    let fresh := c.nextPtr
    let snode := copyWithScene (c.heap cur) defaultNode
    ({ c with heap := fun x => if x = fresh then snode else c.heap x, nextPtr := fresh + 1 },
     dst.dropLast ++ [top.map (fun x => if x = cur then fresh else x)])

/-- The first loop of `Undo`/`Redo` over the source map (in key order, as
`std::map` iterates): an ID absent from the current map queues the saved node
for `AddNode`; an ID present in both with different node objects snapshots the
current node into the destination stack and copies the saved node's state over
it. -/
def undoPhase1 (cm : List (String × Nat)) :
    SceneCore → List (List Nat) → List (String × Nat) → Phase1Out
  | c, dst, [] => ⟨c, dst, []⟩
  | c, dst, (k, p) :: rest =>
    match mapFind cm k with
    | none =>
      let r := undoPhase1 cm c dst rest
      ⟨r.core, r.dst, p :: r.adds⟩
    | some q =>
      if p = q then undoPhase1 cm c dst rest
      else
        let s1 := copyNodeInStackTop c dst q
        let c2 : SceneCore :=
          { s1.1 with heap := fun x => if x = q then copyWithScene (s1.1.heap p) (s1.1.heap q) else s1.1.heap x }
        undoPhase1 cm c2 s1.2 rest

/-- The common body of `Undo` and `Redo` (the two C++ bodies are textual
duplicates up to which stack is restored from and which is pushed to): push
the current collection onto `dst`, build both ID maps, run the first loop,
collect the current-only nodes, `AddNode` the saved-only nodes, `RemoveNode`
the current-only nodes, and pop the source stack. -/
def restoreStacks (c : SceneCore) (src dst : List (List Nat)) :
    SceneCore × List (List Nat) × List (List Nat) :=
  match src.getLast? with
  | none => (c, src, dst)
  | some top =>
    let dst1 := dst ++ [c.currentScene]
    let curMap := buildIdMap c.heap c.currentScene
    let srcMap := buildIdMap c.heap top
    let r := undoPhase1 curMap c dst1 srcMap
    let removes := (curMap.filter (fun e => (mapFind srcMap e.1).isNone)).map Prod.snd
    let cA := r.adds.foldl (fun cc p => (addNode cc p).1) r.core
    let cB := removes.foldl removeNode cA
    (cB, src.dropLast, r.dst)

/-- The full `vtkMRMLScene` state: the core plus the undo and redo stacks
(`std::list<vtkCollection*>`, back = most recent), the error code, the
`InUndo` guard, the `UndoFlag`, and the `URL`. -/
structure Scene where
  core : SceneCore
  undoStack : List (List Nat)
  redoStack : List (List Nat)
  errorCode : Nat
  inUndo : Bool
  undoFlag : Bool
  url : String

/-- `vtkMRMLScene::Undo`: returns immediately on an empty undo stack;
otherwise restores from the undo stack, pushing into the redo stack, with
`InUndo` raised for the duration and lowered at the end. -/
def Scene.undo (s : Scene) : Scene :=
  if s.undoStack = [] then s
  else
    let r := restoreStacks s.core s.undoStack s.redoStack
    { s with core := r.1, undoStack := r.2.1, redoStack := r.2.2, inUndo := false }

/-- `vtkMRMLScene::Redo`: returns immediately on an empty redo stack;
otherwise restores from the redo stack, pushing into the undo stack. -/
def Scene.redo (s : Scene) : Scene :=
  if s.redoStack = [] then s
  else
    let r := restoreStacks s.core s.redoStack s.undoStack
    { s with core := r.1, redoStack := r.2.1, undoStack := r.2.2 }

/-- `vtkMRMLScene::SaveStateForUndo` (all overloads: the collection overload
with the whole scene is the no-argument form): guarded by `InUndo`, clears the
redo stack, raises `UndoFlag`, pushes the current collection onto the undo
stack, and snapshots each given node into that new stack top. -/
def Scene.saveStateForUndo (s : Scene) (nodes : List Nat) : Scene :=
  if s.inUndo then s
  else
    let s1 : Scene :=
      { s with redoStack := [], undoFlag := true,
               undoStack := s.undoStack ++ [s.core.currentScene] }
    nodes.foldl (fun sc p =>
      let r := copyNodeInStackTop sc.core sc.undoStack p
      { sc with core := r.1, undoStack := r.2 }) s1

/-! ### Clear -/

/-- `vtkMRMLScene::RemoveAllNodesExceptSingletons`: collects the nodes with a
NULL singleton tag and removes each collected node from the collection with
`vtkCollection::RemoveItem` (first occurrence). -/
def removeAllNodesExceptSingletons (c : SceneCore) : SceneCore :=
  let removeList := c.currentScene.filter (fun p => (c.heap p).singletonTag.isNone)
  { c with currentScene := removeList.foldl List.erase c.currentScene }

/-- `vtkMRMLScene::ResetNodes`: calls `Reset` on every node currently in the
scene. -/
def resetNodes (c : SceneCore) : SceneCore :=
  { c with heap := fun p => if c.currentScene.contains p then resetNode (c.heap p) else c.heap p }

/-- Modelled from the spec: `ClearReferencedNodeID` is declared inline in
`vtkMRMLScene.h`, which is not under src/; it empties the three
reference-tracking containers the scene keeps. -/
def clearReferencedNodeID (c : SceneCore) : SceneCore :=
  { c with referencedIDs := [], referencingNodes := [], referencedIDChanges := [] }

/-- `vtkMRMLScene::Clear(removeSingletons)`: with 0 it removes the
non-singleton nodes and `Reset`s the survivors, otherwise it empties the
collection; then it clears the referenced-ID state, both stacks, and
`UniqueIDByClass`.  `SetUndoOff` at entry is undone by the unconditional
`SetUndoOn` at exit. -/
def Scene.clear (s : Scene) (removeSingletons : Int) : Scene :=
  let c1 := if removeSingletons = 0
    then resetNodes (removeAllNodesExceptSingletons s.core)
    else { s.core with currentScene := [] }
  let c2 := clearReferencedNodeID c1
  { s with core := { c2 with uniqueIDByClass := [] },
           undoStack := [], redoStack := [], undoFlag := true }

/-! ### Commit -/

/-- Modelled from the spec: `vtkIndent` is VTK infrastructure, not under src/;
streaming `vtkIndent(i)` emits `i` spaces (none for a non-positive value). -/
def indentStr (i : Int) : String := String.mk (List.replicate i.toNat ' ')

/-- The per-node output of the `Commit` loop body: the opening tag at the
current indent, the node's own attributes (`WriteXML`), the bracket close, the
node's body (`WriteNodeBodyXML`), and the closing tag. -/
def writeNodeXML (ind : Int) (n : Node) : String :=
  indentStr ind ++ "<" ++ n.tagName ++ "\n" ++ n.attrsXML ++
    indentStr ind ++ ">" ++ n.bodyXML ++ "</" ++ n.tagName ++ ">\n"

/-- The node loop of `vtkMRMLScene::Commit`: skips nodes whose
`SaveWithScene` flag is unset, decrements the indent before a negative
`GetIndent` node, and increments it after a positive one. -/
def commitLoop (h : Nat → Node) : List Nat → Int → String
  | [], _ => ""
  | p :: rest, ind =>
    let n := h p
    if !n.saveWithScene then commitLoop h rest ind
    else
      let ind1 := if n.indent < 0 then ind - 2 else ind
      let ind2 := if n.indent > 0 then ind1 + 2 else ind1
      writeNodeXML ind1 n ++ commitLoop h rest ind2

/-- The complete document `Commit` writes: the `<MRML>` root element wrapping
the node loop output, starting at indent 0. -/
def commitOutput (c : SceneCore) : String :=
  "<MRML>\n" ++ commitLoop c.heap c.currentScene 0 ++ "</MRML>\n"

/-- `vtkMRMLScene::Commit(url)`: a NULL url falls back to the scene's `URL`;
the file-open outcome is an environment input `openFails`.  On open failure
the error code is set (2 under `VTK_MAJOR_VERSION <= 5`, the nonzero
`CannotOpenFileError` code otherwise) and nothing is written; on success the
document is written and the error code reset to 0.  Both paths return 1. -/
def commit (s : Scene) (url : Option String) (openFails : Bool) :
    Scene × Int × Option String :=
  if openFails then ({ s with errorCode := 2 }, 1, none)
  else ({ s with errorCode := 0 }, 1, some (commitOutput s.core))

/-! ### Reachability and invariants -/

/-- Scene states reachable from the empty scene by `AddNode` (on a freshly
allocated node of arbitrary state) and `RemoveNode` (on an arbitrary
pointer). -/
inductive Reachable : SceneCore → Prop where
  | empty : Reachable emptyCore
  | add (s : SceneCore) (n : Node) : Reachable s → Reachable (addNewNode s n)
  | remove (s : SceneCore) (p : Nat) : Reachable s → Reachable (removeNode s p)

/-- As `Reachable`, but every added node carrying a singleton tag is freshly
created (NULL ID), the way singleton nodes are constructed in the
application. -/
inductive ReachableSafe : SceneCore → Prop where
  | empty : ReachableSafe emptyCore
  | add (s : SceneCore) (n : Node) (hn : n.singletonTag ≠ none → n.id = none) :
      ReachableSafe s → ReachableSafe (addNewNode s n)
  | remove (s : SceneCore) (p : Nat) : ReachableSafe s → ReachableSafe (removeNode s p)

/-- A well-formed node for the undo/redo theorems: it carries a non-empty ID,
its `AddToScene` flag is set, and it is not a singleton. -/
def WFNode (n : Node) : Prop :=
  n.id ≠ none ∧ idKey n ≠ "" ∧ n.addToScene = true ∧ n.singletonTag = none

instance (n : Node) : Decidable (WFNode n) := by unfold WFNode; infer_instance

/-- A well-formed node list over a heap: no duplicate pointers, every node
well-formed, and pairwise distinct IDs. -/
def WFL (h : Nat → Node) (l : List Nat) : Prop :=
  l.Nodup ∧ (∀ p ∈ l, WFNode (h p)) ∧ l.Pairwise (fun p q => idKey (h p) ≠ idKey (h q))

instance (h : Nat → Node) (l : List Nat) : Decidable (WFL h l) := by
  unfold WFL; infer_instance

/-- The ID of each node in the scene, in scene order. -/
def sceneIDs (c : SceneCore) : List String :=
  c.currentScene.map (fun p => idKey (c.heap p))

/-- The basic scene invariant of claim C3: every node in the collection has a
non-empty ID, distinct nodes carry distinct IDs, and the collection mentions
only allocated pointers. -/
def SceneInv (c : SceneCore) : Prop :=
  (∀ p ∈ c.currentScene, (c.heap p).id ≠ none ∧ idKey (c.heap p) ≠ "") ∧
  c.currentScene.Pairwise (fun p q => p ≠ q → idKey (c.heap p) ≠ idKey (c.heap q)) ∧
  (∀ p ∈ c.currentScene, p < c.nextPtr)

/-! ### Decimal readback (for the unique-ID search lemmas) -/

/-- Numeric value of a decimal digit character. -/
def digitVal (c : Char) : Nat := c.toNat - 48

/-- Numeric value of a decimal digit string. -/
def digitsVal (l : List Char) : Nat := l.foldl (fun a c => a * 10 + digitVal c) 0

/-! ### The pipeline headers (claim C6) -/

/-- The four operations of VTK's execution-request protocol named by the
spec. -/
def execRequestProtocol : List String :=
  ["ProcessRequest", "RequestData", "RequestInformation", "RequestUpdateExtent"]

/-- The member functions declared by `vtkHyperTreeGridAlgorithm` in
`src/Common/ExecutionModel/vtkHyperTreeGridAlgorithm.h` (public and
protected, overloads listed once; constructor, destructor and the deleted
copy operations omitted). -/
def vtkHyperTreeGridAlgorithmMembers : List String :=
  ["PrintSelf", "GetOutput", "SetOutput", "GetHyperTreeGridOutput",
   "GetPolyDataOutput", "GetUnstructuredGridOutput", "ProcessRequest",
   "SetInputData", "AddInputData", "RequestInformation", "RequestData",
   "RequestUpdateExtent", "ProcessTrees", "FillInputPortInformation",
   "FillOutputPortInformation"]

/-- The member functions declared by `vtkDataObject` in
`src/common/vtkDataObject.h` (public and protected, macro-generated
accessors expanded, constructor/destructor/copy omitted). -/
def vtkDataObjectMembers : List String :=
  ["New", "GetClassName", "PrintSelf", "MakeObject", "GetSource", "SetSource",
   "GetMTime", "Initialize", "ReleaseData", "ShouldIReleaseData",
   "GetDataReleased", "SetReleaseDataFlag", "GetReleaseDataFlag",
   "ReleaseDataFlagOn", "ReleaseDataFlagOff", "SetGlobalReleaseDataFlag",
   "GlobalReleaseDataFlagOn", "GlobalReleaseDataFlagOff",
   "GetGlobalReleaseDataFlag", "SetFieldData", "GetFieldData", "UnRegister",
   "GetNetReferenceCount", "Update", "InternalUpdate", "UpdateInformation",
   "SetUpdateExtent", "SetMemoryLimit", "GetMemoryLimit",
   "SetEstimatedWholeMemorySize", "GetEstimatedWholeMemorySize",
   "GetEstimatedUpdateMemorySize", "GetActualMemorySize", "SetPipelineMTime",
   "GetPipelineMTime", "CopyUpdateExtent", "GetGenericUpdateExtent",
   "CopyGenericUpdateExtent", "GetDataInformation", "CopyInformation",
   "GetDataObjectType", "GetUpdateTime", "PreUpdate",
   "ClipUpdateExtentWithWholeExtent"]

/-- Whether a class declares every operation of the execution-request
protocol. -/
def providesExecRequestProtocol (members : List String) : Bool :=
  execRequestProtocol.all (fun m => members.contains m)

/-! ### Specification-side description of `Commit` (claim C5) -/

/-- Written from the spec's words for claim C5, to be compared with
`commitLoop`: one element per node, in order, with no skip test — to be
applied to the `SaveWithScene`-filtered node list. -/
def savedNodeElements (h : Nat → Node) : List Nat → Int → String
  | [], _ => ""
  | p :: rest, ind =>
    let n := h p
    let ind1 := if n.indent < 0 then ind - 2 else ind
    let ind2 := if n.indent > 0 then ind1 + 2 else ind1
    writeNodeXML ind1 n ++ savedNodeElements h rest ind2

/-! ### Concrete scenes used in the claim instances -/

/-- An ordinary well-formed node with ID `A1`. -/
def wNodeA : Node :=
  { defaultNode with id := some "A1", name := some "a", className := "A", tagName := "A" }

/-- An ordinary well-formed node with ID `B1`. -/
def wNodeB : Node :=
  { defaultNode with id := some "B1", name := some "b", className := "B", tagName := "B" }

/-- A scene holding `wNodeA`, with one undo entry holding `wNodeB`. -/
def wScene : Scene :=
  { core := { emptyCore with
      heap := fun p => if p = 0 then wNodeA else if p = 1 then wNodeB else defaultNode,
      currentScene := [0], nextPtr := 2 },
    undoStack := [[1]], redoStack := [], errorCode := 0, inUndo := false,
    undoFlag := true, url := "" }

/-- A node whose `AddToScene` flag is cleared. -/
def cexNodeNoAdd : Node :=
  { defaultNode with id := some "A1", className := "A", addToScene := false }

/-- A scene whose only undo entry holds a node with `AddToScene` unset. -/
def cexSceneC1 : Scene :=
  { core := { emptyCore with
      heap := fun p => if p = 0 then cexNodeNoAdd else defaultNode, nextPtr := 1 },
    undoStack := [[0]], redoStack := [], errorCode := 0, inUndo := false,
    undoFlag := true, url := "" }

/-- A scene holding a node with `AddToScene` unset, with an empty collection
saved on the undo stack. -/
def cexSceneC2 : Scene :=
  { core := { emptyCore with
      heap := fun p => if p = 0 then cexNodeNoAdd else defaultNode,
      currentScene := [0], nextPtr := 1 },
    undoStack := [[]], redoStack := [], errorCode := 0, inUndo := false,
    undoFlag := true, url := "" }

/-- A node of class `B` carrying the ID `B7`. -/
def nodeB7 : Node :=
  { defaultNode with id := some "B7", name := some "c", className := "B" }

/-- A freshly created singleton node of class `A` (no ID yet). -/
def nodeSingNoId : Node :=
  { defaultNode with name := some "a", className := "A", singletonTag := some "S" }

/-- A singleton node of class `A` arriving with the ID `B7`. -/
def nodeSingB7 : Node :=
  { defaultNode with id := some "B7", name := some "b", className := "A",
                     singletonTag := some "S" }

/-- Adding `nodeB7`, a fresh singleton, then a singleton carrying `B7`:
the singleton merge copies the ID `B7` onto the merged node. -/
def c3CexScene : SceneCore :=
  addNewNode (addNewNode (addNewNode emptyCore nodeB7) nodeSingNoId) nodeSingB7

/-- A one-node scene reached by a single safe `AddNode`. -/
def c3WitScene : SceneCore := addNewNode emptyCore nodeB7

/-- An in-scene singleton node of class `A` with tag `S`. -/
def singNodeA : Node :=
  { defaultNode with id := some "A1", name := some "a", className := "A",
                     singletonTag := some "S" }

/-- A fresh singleton node of class `A` with tag `S` (no ID). -/
def singNodeNew : Node :=
  { defaultNode with name := some "b", className := "A", singletonTag := some "S" }

/-- A scene holding the singleton `singNodeA` at pointer 0 and the incoming
singleton `singNodeNew` allocated at pointer 1. -/
def c4CexCore : SceneCore :=
  { emptyCore with
      heap := fun p => if p = 0 then singNodeA else if p = 1 then singNodeNew else defaultNode,
      currentScene := [0], nextPtr := 2 }

/-- A node of class `A` without an ID, to be given a generated one. -/
def c4WitNode : Node := { defaultNode with className := "A", name := some "x" }

/-- A scene holding `wNodeA` (ID `A1`) at pointer 0 and the ID-less
`c4WitNode` allocated at pointer 1. -/
def c4WitCore : SceneCore :=
  { emptyCore with
      heap := fun p => if p = 0 then wNodeA else if p = 1 then c4WitNode else defaultNode,
      currentScene := [0], nextPtr := 2 }

/-- An incoming singleton whose `AddToScene` flag is cleared. -/
def c8CexNode : Node :=
  { defaultNode with id := some "B1", className := "A", singletonTag := some "S",
                     addToScene := false }

/-- A scene holding `singNodeA` with `c8CexNode` allocated at pointer 1. -/
def c8CexCore : SceneCore :=
  { emptyCore with
      heap := fun p => if p = 0 then singNodeA else if p = 1 then c8CexNode else defaultNode,
      currentScene := [0], nextPtr := 2 }

/-- A scene with no nodes and empty stacks. -/
def sceneEmpty : Scene :=
  { core := emptyCore, undoStack := [], redoStack := [], errorCode := 0,
    inUndo := false, undoFlag := true, url := "" }

/-- A scene with one singleton and one ordinary node, non-empty stacks and a
non-empty per-class unique-ID table. -/
def c9Scene : Scene :=
  { core := { emptyCore with
      heap := fun p => if p = 0 then singNodeA else if p = 1 then wNodeB else defaultNode,
      currentScene := [0, 1], uniqueIDByClass := [("A", 3)], nextPtr := 2 },
    undoStack := [[0]], redoStack := [[1]], errorCode := 0, inUndo := false,
    undoFlag := true, url := "" }

/-- The singleton-uniqueness property of claim C8: no two distinct nodes in
the scene share both a class and a (non-NULL) singleton tag. -/
def SingletonInv (c : SceneCore) : Prop :=
  c.currentScene.Pairwise (fun p q => p ≠ q →
    ¬((c.heap p).className = (c.heap q).className ∧ (c.heap p).singletonTag ≠ none ∧
      (c.heap p).singletonTag = (c.heap q).singletonTag))

/-! ## Theorems -/

/-! ### `Nat.repr` is injective and non-empty -/

theorem toDigitsCore_acc (fuel n : Nat) (acc : List Char) :
    Nat.toDigitsCore 10 fuel n acc = Nat.toDigitsCore 10 fuel n [] ++ acc := by
  induction fuel generalizing n acc with
  | zero => simp [Nat.toDigitsCore]
  | succ fuel ih =>
    simp only [Nat.toDigitsCore]
    by_cases h : n / 10 = 0
    · simp [h]
    · simp only [h, if_false]
      rw [ih (n / 10) (Nat.digitChar (n % 10) :: acc), ih (n / 10) [Nat.digitChar (n % 10)]]
      simp

theorem toDigitsCore_fuel (f1 f2 n : Nat) (h1 : n < f1) (h2 : n < f2) :
    Nat.toDigitsCore 10 f1 n [] = Nat.toDigitsCore 10 f2 n [] := by
  induction f1 generalizing f2 n with
  | zero => omega
  | succ f1 ih =>
    obtain ⟨g, rfl⟩ : ∃ k, f2 = k + 1 := ⟨f2 - 1, by omega⟩
    simp only [Nat.toDigitsCore]
    by_cases h : n / 10 = 0
    · simp [h]
    · simp only [h, if_false]
      have hn : 0 < n := by
        rcases Nat.eq_zero_or_pos n with h0 | h0
        · exact absurd (by simp [h0]) h
        · exact h0
      have hdiv : n / 10 < n := Nat.div_lt_self hn (by omega)
      rw [toDigitsCore_acc f1, toDigitsCore_acc g, ih g (n / 10) (by omega) (by omega)]

theorem toDigits_step (n : Nat) :
    Nat.toDigits 10 n =
      if n < 10 then [Nat.digitChar n]
      else Nat.toDigits 10 (n / 10) ++ [Nat.digitChar (n % 10)] := by
  by_cases h : n < 10
  · have hdiv : n / 10 = 0 := Nat.div_eq_of_lt h
    simp [Nat.toDigits, Nat.toDigitsCore, hdiv, Nat.mod_eq_of_lt h, h]
  · have hdiv : n / 10 ≠ 0 := by
      intro h0
      exact h (by omega)
    have hn : 0 < n := by omega
    have hlt : n / 10 < n := Nat.div_lt_self hn (by omega)
    rw [if_neg h]
    show Nat.toDigitsCore 10 (n + 1) n [] = _
    conv_lhs => rw [show Nat.toDigitsCore 10 (n + 1) n [] =
      Nat.toDigitsCore 10 n (n / 10) [Nat.digitChar (n % 10)] by
        simp only [Nat.toDigitsCore, hdiv, if_false]]
    rw [toDigitsCore_acc n (n / 10)]
    rw [show Nat.toDigits 10 (n / 10) = Nat.toDigitsCore 10 (n / 10 + 1) (n / 10) [] from rfl]
    rw [toDigitsCore_fuel n (n / 10 + 1) (n / 10) (by omega) (by omega)]

theorem digitVal_digitChar (n : Nat) (h : n < 10) : digitVal (Nat.digitChar n) = n := by
  interval_cases n <;> decide

theorem digitsVal_concat (l : List Char) (c : Char) :
    digitsVal (l ++ [c]) = digitsVal l * 10 + digitVal c := by
  simp [digitsVal, List.foldl_append]

theorem digitsVal_toDigits (n : Nat) : digitsVal (Nat.toDigits 10 n) = n := by
  induction n using Nat.strong_induction_on with
  | _ n ih =>
    rw [toDigits_step]
    by_cases h : n < 10
    · simp [h, digitsVal, digitVal_digitChar n h]
    · have hn : 0 < n := by omega
      have hlt : n / 10 < n := Nat.div_lt_self hn (by omega)
      simp only [h, if_false]
      rw [digitsVal_concat, ih (n / 10) hlt, digitVal_digitChar (n % 10) (Nat.mod_lt n (by omega))]
      omega

theorem natRepr_injective : Function.Injective Nat.repr := by
  intro m n h
  unfold Nat.repr at h
  rw [List.asString_inj] at h
  have := congrArg digitsVal h
  rwa [digitsVal_toDigits, digitsVal_toDigits] at this

theorem toDigits_ne_nil (n : Nat) : Nat.toDigits 10 n ≠ [] := by
  rw [toDigits_step]
  by_cases h : n < 10 <;> simp [h]

theorem natRepr_ne_empty (n : Nat) : Nat.repr n ≠ "" := by
  unfold Nat.repr
  intro h
  rw [← String.asString_nil, List.asString_inj] at h
  exact toDigits_ne_nil n h

theorem string_append_left_cancel {s a b : String} (h : s ++ a = s ++ b) : a = b := by
  have hd := congrArg String.data h
  simp only [String.data_append] at hd
  exact String.ext (List.append_cancel_left hd)

theorem candidate_injective (cls : String) {a b : Nat}
    (h : cls ++ toString a = cls ++ toString b) : a = b := by
  have h2 : toString a = toString b := string_append_left_cancel h
  exact natRepr_injective h2

theorem candidate_ne_empty (cls : String) (n : Nat) : cls ++ toString n ≠ "" := by
  intro h
  have hd := congrArg String.data h
  simp only [String.data_append] at hd
  rcases List.append_eq_nil.mp hd with ⟨-, h2⟩
  exact natRepr_ne_empty n (String.ext h2)

/-! ### Sorted-map lemmas -/

theorem mapInsert_mem {α : Type} {m : List (String × α)} (hs : KeysSorted m)
    (k : String) (v : α) (e : String × α) :
    e ∈ mapInsert k v m ↔ e = (k, v) ∨ (e ∈ m ∧ e.1 ≠ k) := by
  induction m with
  | nil => simp [mapInsert]
  | cons a t ih =>
    rw [KeysSorted, List.pairwise_cons] at hs
    obtain ⟨ha, ht⟩ := hs
    simp only [mapInsert]
    rcases lt_trichotomy k a.1 with h1 | h1 | h1
    · rw [if_pos h1]
      have hne : ∀ x ∈ a :: t, x.1 ≠ k := by
        intro x hx
        rcases List.mem_cons.mp hx with rfl | hx
        · exact ne_of_gt h1
        · exact ne_of_gt (lt_trans h1 (ha x hx))
      constructor
      · intro hm
        rcases List.mem_cons.mp hm with rfl | hm
        · exact Or.inl rfl
        · exact Or.inr ⟨hm, hne e hm⟩
      · rintro (rfl | ⟨hm, -⟩)
        · exact List.mem_cons_self _ _
        · exact List.mem_cons_of_mem _ hm
    · rw [if_neg (by rw [h1]; exact lt_irrefl a.1), if_pos h1]
      constructor
      · intro hm
        rcases List.mem_cons.mp hm with rfl | hm
        · exact Or.inl rfl
        · refine Or.inr ⟨List.mem_cons_of_mem _ hm, ?_⟩
          have := ha e hm
          rw [← h1] at this
          exact ne_of_gt this
      · rintro (rfl | ⟨hm, hne⟩)
        · exact List.mem_cons_self _ _
        · rcases List.mem_cons.mp hm with rfl | hm
          · exact absurd h1.symm hne
          · exact List.mem_cons_of_mem _ hm
    · rw [if_neg (asymm h1), if_neg (ne_of_gt h1)]
      have hane : a.1 ≠ k := ne_of_lt h1
      constructor
      · intro hm
        rcases List.mem_cons.mp hm with rfl | hm
        · exact Or.inr ⟨List.mem_cons_self _ _, hane⟩
        · rcases (ih ht).mp hm with rfl | ⟨hm2, hne⟩
          · exact Or.inl rfl
          · exact Or.inr ⟨List.mem_cons_of_mem _ hm2, hne⟩
      · rintro (rfl | ⟨hm, hne⟩)
        · exact List.mem_cons_of_mem _ ((ih ht).mpr (Or.inl rfl))
        · rcases List.mem_cons.mp hm with rfl | hm
          · exact List.mem_cons_self _ _
          · exact List.mem_cons_of_mem _ ((ih ht).mpr (Or.inr ⟨hm, hne⟩))

theorem mapInsert_sorted {α : Type} {m : List (String × α)} (hs : KeysSorted m)
    (k : String) (v : α) : KeysSorted (mapInsert k v m) := by
  induction m with
  | nil => simp [mapInsert, KeysSorted]
  | cons a t ih =>
    rw [KeysSorted, List.pairwise_cons] at hs
    obtain ⟨ha, ht⟩ := hs
    simp only [mapInsert]
    rcases lt_trichotomy k a.1 with h1 | h1 | h1
    · rw [if_pos h1]
      rw [KeysSorted, List.pairwise_cons]
      refine ⟨?_, List.pairwise_cons.mpr ⟨ha, ht⟩⟩
      intro b hb
      rcases List.mem_cons.mp hb with rfl | hb
      · exact h1
      · exact lt_trans h1 (ha b hb)
    · rw [if_neg (by rw [h1]; exact lt_irrefl a.1), if_pos h1]
      rw [KeysSorted, List.pairwise_cons]
      refine ⟨?_, ht⟩
      intro b hb
      rw [h1]
      exact ha b hb
    · rw [if_neg (asymm h1), if_neg (ne_of_gt h1)]
      rw [KeysSorted, List.pairwise_cons]
      refine ⟨?_, ih ht⟩
      intro b hb
      rcases (mapInsert_mem ht k v b).mp hb with rfl | ⟨hb2, -⟩
      · exact h1
      · exact ha b hb2

theorem mapFind_eq_none {α : Type} (m : List (String × α)) (k : String) :
    mapFind m k = none ↔ ∀ e ∈ m, e.1 ≠ k := by
  unfold mapFind
  rw [Option.map_eq_none']
  rw [List.find?_eq_none]
  simp only [beq_iff_eq]

theorem mapFind_eq_some {α : Type} {m : List (String × α)} (hs : KeysSorted m)
    (k : String) (v : α) : mapFind m k = some v ↔ (k, v) ∈ m := by
  induction m with
  | nil => simp [mapFind]
  | cons a t ih =>
    rw [KeysSorted, List.pairwise_cons] at hs
    obtain ⟨ha, ht⟩ := hs
    by_cases h : a.1 = k
    · have hbeq : (a.1 == k) = true := beq_iff_eq.mpr h
      have hfind : mapFind (a :: t) k = some a.2 := by
        simp [mapFind, List.find?_cons, hbeq]
      rw [hfind]
      constructor
      · intro hv
        have hav : a = (k, v) := by
          obtain ⟨a1, a2⟩ := a
          simp only [Option.some_inj] at hv
          simp only at h hv
          simp [h, hv]
        rw [← hav]
        exact List.mem_cons_self _ _
      · intro hm
        rcases List.mem_cons.mp hm with heq | hm
        · rw [← heq]
        · exfalso
          have hlt := ha _ hm
          simp only at hlt
          rw [h] at hlt
          exact lt_irrefl k hlt
    · have hbeq : (a.1 == k) = false := beq_eq_false_iff_ne.mpr h
      have hfind : mapFind (a :: t) k = mapFind t k := by
        simp [mapFind, List.find?_cons, hbeq]
      rw [hfind, ih ht]
      constructor
      · exact fun hm => List.mem_cons_of_mem _ hm
      · intro hm
        rcases List.mem_cons.mp hm with heq | hm
        · exact absurd (congrArg Prod.fst heq.symm) h
        · exact hm

/-! ### `buildIdMap` characterisation -/

theorem buildIdMap_aux (h : Nat → Node) :
    ∀ (l : List Nat) (m : List (String × Nat)),
      KeysSorted m →
      (∀ p ∈ l, ∀ e ∈ m, e.1 ≠ idKey (h p)) →
      l.Pairwise (fun p q => idKey (h p) ≠ idKey (h q)) →
      KeysSorted (l.foldl (fun mm p => mapInsert (idKey (h p)) p mm) m) ∧
      (∀ e, e ∈ l.foldl (fun mm p => mapInsert (idKey (h p)) p mm) m ↔
        e ∈ m ∨ ∃ p ∈ l, e = (idKey (h p), p))
  | [], m, hs, _, _ => by simp [hs]
  | p :: t, m, hs, hdisj, hpw => by
    rw [List.pairwise_cons] at hpw
    obtain ⟨hp, hpw'⟩ := hpw
    have hs' : KeysSorted (mapInsert (idKey (h p)) p m) := mapInsert_sorted hs _ _
    have hdisj' : ∀ q ∈ t, ∀ e ∈ mapInsert (idKey (h p)) p m, e.1 ≠ idKey (h q) := by
      intro q hq e he
      rcases (mapInsert_mem hs _ _ e).mp he with rfl | ⟨he2, -⟩
      · exact hp q hq
      · exact hdisj q (List.mem_cons_of_mem _ hq) e he2
    obtain ⟨ih1, ih2⟩ := buildIdMap_aux h t (mapInsert (idKey (h p)) p m) hs' hdisj' hpw'
    refine ⟨ih1, fun e => ?_⟩
    rw [List.foldl_cons, ih2 e]
    rw [mapInsert_mem hs _ _ e]
    constructor
    · rintro ((rfl | ⟨hm, -⟩) | ⟨q, hq, rfl⟩)
      · exact Or.inr ⟨p, List.mem_cons_self _ _, rfl⟩
      · exact Or.inl hm
      · exact Or.inr ⟨q, List.mem_cons_of_mem _ hq, rfl⟩
    · rintro (hm | ⟨q, hq, rfl⟩)
      · exact Or.inl (Or.inr ⟨hm, (hdisj p (List.mem_cons_self _ _) e hm)⟩)
      · rcases List.mem_cons.mp hq with rfl | hq
        · exact Or.inl (Or.inl rfl)
        · exact Or.inr ⟨q, hq, rfl⟩

theorem buildIdMap_sorted (h : Nat → Node) (l : List Nat)
    (hpw : l.Pairwise (fun p q => idKey (h p) ≠ idKey (h q))) :
    KeysSorted (buildIdMap h l) :=
  (buildIdMap_aux h l [] List.Pairwise.nil (by simp) hpw).1

theorem buildIdMap_mem (h : Nat → Node) (l : List Nat)
    (hpw : l.Pairwise (fun p q => idKey (h p) ≠ idKey (h q))) (e : String × Nat) :
    e ∈ buildIdMap h l ↔ ∃ p ∈ l, e = (idKey (h p), p) := by
  rw [buildIdMap, (buildIdMap_aux h l [] List.Pairwise.nil (by simp) hpw).2 e]
  simp

theorem buildIdMap_find_some (h : Nat → Node) (l : List Nat)
    (hpw : l.Pairwise (fun p q => idKey (h p) ≠ idKey (h q))) (k : String) (p : Nat) :
    mapFind (buildIdMap h l) k = some p ↔ p ∈ l ∧ idKey (h p) = k := by
  rw [mapFind_eq_some (buildIdMap_sorted h l hpw), buildIdMap_mem h l hpw]
  constructor
  · rintro ⟨q, hq, he⟩
    obtain ⟨h1, h2⟩ := Prod.mk.injEq .. ▸ he
    exact ⟨h2 ▸ hq, h2 ▸ h1.symm⟩
  · rintro ⟨hp, rfl⟩
    exact ⟨p, hp, rfl⟩

theorem buildIdMap_find_none (h : Nat → Node) (l : List Nat)
    (hpw : l.Pairwise (fun p q => idKey (h p) ≠ idKey (h q))) (k : String) :
    mapFind (buildIdMap h l) k = none ↔ ∀ p ∈ l, idKey (h p) ≠ k := by
  rw [mapFind_eq_none]
  constructor
  · intro hall p hp
    exact hall (idKey (h p), p) ((buildIdMap_mem h l hpw _).mpr ⟨p, hp, rfl⟩)
  · intro hall e he
    rcases (buildIdMap_mem h l hpw e).mp he with ⟨p, hp, rfl⟩
    exact hall p hp

theorem buildIdMap_keys_nodup (h : Nat → Node) (l : List Nat)
    (hpw : l.Pairwise (fun p q => idKey (h p) ≠ idKey (h q))) :
    ((buildIdMap h l).map Prod.fst).Nodup := by
  have hs := buildIdMap_sorted h l hpw
  rw [KeysSorted] at hs
  show ((buildIdMap h l).map Prod.fst).Pairwise (· ≠ ·)
  rw [List.pairwise_map]
  exact hs.imp (fun hlt => ne_of_lt hlt)

/-! ### `GetNodeByID` characterisation -/

theorem getNodeByID_none (c : SceneCore) : getNodeByID c none = none := rfl

theorem getNodeByID_eq_none_iff (c : SceneCore) (i : String) :
    getNodeByID c (some i) = none ↔ ∀ p ∈ c.currentScene, idKey (c.heap p) ≠ i := by
  unfold getNodeByID
  rw [List.getLast?_eq_none_iff, List.filter_eq_nil_iff]
  simp only [beq_iff_eq]

theorem getNodeByID_mem_of_some {c : SceneCore} {i : String} {p : Nat}
    (h : getNodeByID c (some i) = some p) :
    p ∈ c.currentScene ∧ idKey (c.heap p) = i := by
  unfold getNodeByID at h
  have hm := List.mem_of_getLast?_eq_some h
  rw [List.mem_filter] at hm
  exact ⟨hm.1, by simpa using hm.2⟩

theorem getNodeByID_eq_some_iff {c : SceneCore}
    (huniq : ∀ p q, p ∈ c.currentScene → q ∈ c.currentScene →
      idKey (c.heap p) = idKey (c.heap q) → p = q)
    (i : String) (p : Nat) :
    getNodeByID c (some i) = some p ↔ p ∈ c.currentScene ∧ idKey (c.heap p) = i := by
  constructor
  · exact getNodeByID_mem_of_some
  · rintro ⟨hp, hkey⟩
    have hne : getNodeByID c (some i) ≠ none := by
      intro hnone
      rw [getNodeByID_eq_none_iff] at hnone
      exact hnone p hp hkey
    rcases Option.ne_none_iff_exists'.mp hne with ⟨q, hq⟩
    obtain ⟨hqmem, hqkey⟩ := getNodeByID_mem_of_some hq
    rwa [huniq q p hqmem hp (by rw [hqkey, hkey])] at hq

/-! ### Free-index search -/

theorem firstFreeAux_ge (c : SceneCore) (cls : String) :
    ∀ fuel i, i ≤ firstFreeAux c cls fuel i
  | 0, i => le_refl i
  | fuel + 1, i => by
    unfold firstFreeAux
    by_cases h : getNodeByID c (some (cls ++ toString i)) = none
    · simp [h]
    · simp only [h, if_false]
      exact le_trans (by omega) (firstFreeAux_ge c cls fuel (i + 1))

theorem firstFreeAux_taken (c : SceneCore) (cls : String) :
    ∀ fuel i j, i ≤ j → j < firstFreeAux c cls fuel i →
      getNodeByID c (some (cls ++ toString j)) ≠ none
  | 0, i, j, hij, hlt => by
    unfold firstFreeAux at hlt
    omega
  | fuel + 1, i, j, hij, hlt => by
    unfold firstFreeAux at hlt
    by_cases h : getNodeByID c (some (cls ++ toString i)) = none
    · rw [if_pos h] at hlt
      omega
    · rw [if_neg h] at hlt
      by_cases hji : j = i
      · rwa [hji]
      · exact firstFreeAux_taken c cls fuel (i + 1) j (by omega) hlt

theorem firstFreeAux_free (c : SceneCore) (cls : String) :
    ∀ fuel i, (∃ j, j < fuel ∧ getNodeByID c (some (cls ++ toString (i + j))) = none) →
      getNodeByID c (some (cls ++ toString (firstFreeAux c cls fuel i))) = none
  | 0, i, hex => by omega
  | fuel + 1, i, hex => by
    unfold firstFreeAux
    by_cases h : getNodeByID c (some (cls ++ toString i)) = none
    · simp [h]
    · simp only [h, if_false]
      apply firstFreeAux_free c cls fuel (i + 1)
      obtain ⟨j, hj, hfree⟩ := hex
      have hj0 : j ≠ 0 := by
        intro h0
        rw [h0] at hfree
        simp only [Nat.add_zero] at hfree
        exact h hfree
      exact ⟨j - 1, by omega, by rw [show i + 1 + (j - 1) = i + j by omega]; exact hfree⟩

theorem exists_free_index (c : SceneCore) (cls : String) (hint : Nat) :
    ∃ j, j ≤ c.currentScene.length ∧
      getNodeByID c (some (cls ++ toString (hint + j))) = none := by
  by_contra hcon
  push_neg at hcon
  have hsel : ∀ j : Fin (c.currentScene.length + 1),
      ∃ p, p ∈ c.currentScene ∧ idKey (c.heap p) = cls ++ toString (hint + j.val) := by
    intro j
    have hj := hcon j.val (by omega)
    rcases Option.ne_none_iff_exists'.mp hj with ⟨p, hp⟩
    obtain ⟨h1, h2⟩ := getNodeByID_mem_of_some hp
    exact ⟨p, h1, h2⟩
  choose f hf1 hf2 using hsel
  have hinj : Set.InjOn f ↑(Finset.univ : Finset (Fin (c.currentScene.length + 1))) := by
    intro a _ b _ hab
    have heq : cls ++ toString (hint + a.val) = cls ++ toString (hint + b.val) := by
      rw [← hf2 a, hab, hf2 b]
    have := candidate_injective cls heq
    exact Fin.ext (by omega)
  have hmaps : ∀ a ∈ (Finset.univ : Finset (Fin (c.currentScene.length + 1))),
      f a ∈ c.currentScene.toFinset := by
    intro a _
    rw [List.mem_toFinset]
    exact hf1 a
  have hcard := Finset.card_le_card_of_injOn f hmaps hinj
  rw [Finset.card_univ, Fintype.card_fin] at hcard
  have := List.toFinset_card_le c.currentScene
  omega

theorem uniqueIDIndexFromIndex_spec (c : SceneCore) (cls : String) (hint : Nat) :
    hint ≤ getUniqueIDIndexByClassFromIndex c cls hint ∧
    getNodeByID c (some (cls ++ toString (getUniqueIDIndexByClassFromIndex c cls hint))) = none ∧
    (∀ j, hint ≤ j → j < getUniqueIDIndexByClassFromIndex c cls hint →
      getNodeByID c (some (cls ++ toString j)) ≠ none) := by
  refine ⟨firstFreeAux_ge c cls _ hint, ?_, fun j h1 h2 => firstFreeAux_taken c cls _ hint j h1 h2⟩
  apply firstFreeAux_free
  obtain ⟨j, hj, hfree⟩ := exists_free_index c cls hint
  exact ⟨j, by omega, hfree⟩

/-! ### `AddNode`/`RemoveNode` shape lemmas -/

theorem nameFix_fields (n : Node) :
    (nameFix n).id = n.id ∧ (nameFix n).addToScene = n.addToScene ∧
    (nameFix n).singletonTag = n.singletonTag := by
  unfold nameFix
  split <;> simp

theorem idKey_nameFix (n : Node) : idKey (nameFix n) = idKey n := by
  unfold idKey
  rw [(nameFix_fields n).1]

theorem addNode_keep {c : SceneCore} {p : Nat} {i : String}
    (hflag : (c.heap p).addToScene = true)
    (hsing : (c.heap p).singletonTag = none)
    (hid : (c.heap p).id = some i) (hne : i ≠ "")
    (hfree : getNodeByID c (some i) = none) :
    addNode c p =
      ({ c with heap := fun x => if x = p then nameFix (c.heap p) else c.heap x,
                currentScene := c.currentScene ++ [p] }, some p) := by
  have hbeq : (i == "") = false := beq_eq_false_iff_ne.mpr hne
  have hsome : (getNodeByID c (some i)).isSome = false := by rw [hfree]; rfl
  unfold addNode addNodeNoNotify addNodeFinish
  simp only [hflag, hsing, hid, hbeq, hsome, Bool.not_true, Bool.false_eq_true, if_false,
    Bool.or_self, Bool.false_or, Bool.or_false]

theorem removeNode_fields (c : SceneCore) (p : Nat) :
    (removeNode c p).heap = c.heap ∧
    (removeNode c p).currentScene = c.currentScene.erase p ∧
    (removeNode c p).nextPtr = c.nextPtr ∧
    (removeNode c p).uniqueIDByClass = c.uniqueIDByClass ∧
    (removeNode c p).referencedIDChanges = c.referencedIDChanges :=
  ⟨rfl, rfl, rfl, rfl, rfl⟩

theorem addNodes_spec :
    ∀ (adds : List Nat) (c : SceneCore),
      adds.Nodup →
      (∀ p ∈ adds, WFNode (c.heap p)) →
      (∀ p ∈ adds, ∀ x ∈ c.currentScene, idKey (c.heap x) ≠ idKey (c.heap p)) →
      adds.Pairwise (fun p q => idKey (c.heap p) ≠ idKey (c.heap q)) →
      (adds.foldl (fun cc q => (addNode cc q).1) c).currentScene = c.currentScene ++ adds ∧
      (∀ x, x ∉ adds → (adds.foldl (fun cc q => (addNode cc q).1) c).heap x = c.heap x) ∧
      (∀ p ∈ adds, (adds.foldl (fun cc q => (addNode cc q).1) c).heap p = nameFix (c.heap p)) ∧
      (adds.foldl (fun cc q => (addNode cc q).1) c).nextPtr = c.nextPtr ∧
      (adds.foldl (fun cc q => (addNode cc q).1) c).uniqueIDByClass = c.uniqueIDByClass ∧
      (adds.foldl (fun cc q => (addNode cc q).1) c).referencedIDChanges = c.referencedIDChanges
  | [], c, _, _, _, _ => by simp
  | p :: t, c, hnd, hWF, hfr, hpw => by
    rw [List.nodup_cons] at hnd
    obtain ⟨hpt, hnd'⟩ := hnd
    rw [List.pairwise_cons] at hpw
    obtain ⟨hph, hpw'⟩ := hpw
    obtain ⟨hidne, hkne, hflag, hsing⟩ := hWF p (List.mem_cons_self _ _)
    obtain ⟨i, hid⟩ := Option.ne_none_iff_exists'.mp hidne
    have hkey : idKey (c.heap p) = i := by unfold idKey; rw [hid]; rfl
    have hpnotin : p ∉ c.currentScene := by
      intro hmem
      exact hfr p (List.mem_cons_self _ _) p hmem rfl
    have hfree : getNodeByID c (some i) = none := by
      rw [getNodeByID_eq_none_iff]
      intro x hx
      rw [← hkey]
      exact hfr p (List.mem_cons_self _ _) x hx
    have hstep := addNode_keep hflag hsing hid (hkey ▸ hkne) hfree
    have hfold : (p :: t).foldl (fun cc q => (addNode cc q).1) c =
        t.foldl (fun cc q => (addNode cc q).1) (addNode c p).1 := by
      simp [List.foldl_cons]
    set c1 : SceneCore :=
      { c with heap := fun x => if x = p then nameFix (c.heap p) else c.heap x,
               currentScene := c.currentScene ++ [p] } with hc1
    have hstep1 : (addNode c p).1 = c1 := by rw [hstep]
    have hheap1 : ∀ x, x ≠ p → c1.heap x = c.heap x := by
      intro x hx
      simp [hc1, hx]
    have hheapP : c1.heap p = nameFix (c.heap p) := by simp [hc1]
    have hWF' : ∀ q ∈ t, WFNode (c1.heap q) := by
      intro q hq
      rw [hheap1 q (fun hqp => hpt (hqp ▸ hq))]
      exact hWF q (List.mem_cons_of_mem _ hq)
    have hfr' : ∀ q ∈ t, ∀ x ∈ c1.currentScene, idKey (c1.heap x) ≠ idKey (c1.heap q) := by
      intro q hq x hx
      have hqnp : q ≠ p := fun hqp => hpt (hqp ▸ hq)
      rw [hheap1 q hqnp]
      have hxc1 : x ∈ c.currentScene ++ [p] := by rw [hc1] at hx; exact hx
      rcases List.mem_append.mp hxc1 with hx2 | hx2
      · have hxnp : x ≠ p := fun hxp => hpnotin (hxp ▸ hx2)
        rw [hheap1 x hxnp]
        exact hfr q (List.mem_cons_of_mem _ hq) x hx2
      · rw [List.mem_singleton.mp hx2, hheapP, idKey_nameFix]
        exact hph q hq
    have hpw2 : t.Pairwise (fun a b => idKey (c1.heap a) ≠ idKey (c1.heap b)) := by
      refine List.Pairwise.imp_of_mem ?_ hpw'
      intro a b ha hb hne2
      rw [hheap1 a (fun h => hpt (h ▸ ha)), hheap1 b (fun h => hpt (h ▸ hb))]
      exact hne2
    obtain ⟨ih1, ih2, ih3, ih4, ih5, ih6⟩ := addNodes_spec t c1 hnd' hWF' hfr' hpw2
    rw [hfold, hstep1]
    refine ⟨?_, ?_, ?_, ?_, ?_, ?_⟩
    · rw [ih1, hc1]
      simp
    · intro x hx
      rw [List.mem_cons, not_or] at hx
      rw [ih2 x hx.2, hheap1 x hx.1]
    · intro q hq
      rcases List.mem_cons.mp hq with rfl | hq2
      · rw [ih2 q hpt, hheapP]
      · rw [ih3 q hq2, hheap1 q (fun h => hpt (h ▸ hq2))]
    · rw [ih4, hc1]
    · rw [ih5, hc1]
    · rw [ih6, hc1]

theorem foldl_erase_filter {α : Type} [DecidableEq α] :
    ∀ (rs l : List α), l.Nodup →
      rs.foldl List.erase l = l.filter (fun x => decide (x ∉ rs))
  | [], l, _ => by simp
  | r :: rs, l, hnd => by
    rw [List.foldl_cons, foldl_erase_filter rs (l.erase r) (hnd.erase r),
        hnd.erase_eq_filter r, List.filter_filter]
    refine List.filter_congr ?_
    intro x _
    by_cases hxr : x = r
    · simp [hxr]
    · simp [hxr]

theorem removeNodes_spec :
    ∀ (rs : List Nat) (c : SceneCore),
      (rs.foldl removeNode c).heap = c.heap ∧
      (rs.foldl removeNode c).nextPtr = c.nextPtr ∧
      (rs.foldl removeNode c).uniqueIDByClass = c.uniqueIDByClass ∧
      (rs.foldl removeNode c).referencedIDChanges = c.referencedIDChanges ∧
      (rs.foldl removeNode c).currentScene = rs.foldl List.erase c.currentScene
  | [], c => ⟨rfl, rfl, rfl, rfl, rfl⟩
  | r :: rs, c => by
    obtain ⟨ih1, ih2, ih3, ih4, ih5⟩ := removeNodes_spec rs (removeNode c r)
    exact ⟨ih1, ih2, ih3, ih4, ih5⟩

/-! ### The first `Undo`/`Redo` loop -/

theorem copyWithScene_default : ∀ n : Node, copyWithScene n defaultNode = n := by
  rintro ⟨nid, nn, ncn, ntn, nst, na, ns, ni, nax, nbx, nw, nct⟩
  cases nid <;> rfl

theorem undoPhase1_nil (cm : List (String × Nat)) (c : SceneCore) (dst : List (List Nat)) :
    undoPhase1 cm c dst [] = ⟨c, dst, []⟩ := rfl

theorem undoPhase1_cons_copy (cm : List (String × Nat)) (c : SceneCore)
    (dpre : List (List Nat)) (t0 : List Nat) (k : String) (p q : Nat)
    (rest : List (String × Nat)) (hfind : mapFind cm k = some q) (hpq : p ≠ q)
    (hpf : p ≠ c.nextPtr) (hqf : q ≠ c.nextPtr) :
    undoPhase1 cm c (dpre ++ [t0]) ((k, p) :: rest) =
      undoPhase1 cm
        { c with heap := fun x => if x = q then copyWithScene (c.heap p) (c.heap q)
                                  else if x = c.nextPtr then c.heap q else c.heap x,
                 nextPtr := c.nextPtr + 1 }
        (dpre ++ [t0.map (fun x => if x = q then c.nextPtr else x)]) rest := by
  simp only [undoPhase1, hfind]
  rw [if_neg hpq]
  simp only [copyNodeInStackTop, List.getLast?_concat, List.dropLast_concat,
    copyWithScene_default]
  congr 1
  congr 1
  funext x
  by_cases hx : x = q
  · simp only [hx, if_pos rfl]
    rw [if_neg hpf, if_neg hqf]
  · simp only [if_neg hx]

theorem undoPhase1_spec (cm : List (String × Nat))
    (hcmInj : ∀ k k' q, mapFind cm k = some q → mapFind cm k' = some q → k = k') :
    ∀ (es : List (String × Nat)) (c : SceneCore) (dpre : List (List Nat)) (t0 : List Nat),
      (es.map Prod.fst).Nodup →
      (∀ e ∈ es, e.2 < c.nextPtr) →
      (∀ e ∈ es, ∀ q, mapFind cm e.1 = some q → q < c.nextPtr) →
      (∀ e ∈ es, ∀ q, mapFind cm e.1 = some q → e.2 ≠ q → ∀ k2, mapFind cm k2 ≠ some e.2) →
      (∀ x ∈ t0, x < c.nextPtr) →
      (undoPhase1 cm c (dpre ++ [t0]) es).core.currentScene = c.currentScene ∧
      (undoPhase1 cm c (dpre ++ [t0]) es).core.uniqueIDByClass = c.uniqueIDByClass ∧
      (undoPhase1 cm c (dpre ++ [t0]) es).core.referencedIDs = c.referencedIDs ∧
      (undoPhase1 cm c (dpre ++ [t0]) es).core.referencingNodes = c.referencingNodes ∧
      (undoPhase1 cm c (dpre ++ [t0]) es).core.referencedIDChanges = c.referencedIDChanges ∧
      c.nextPtr ≤ (undoPhase1 cm c (dpre ++ [t0]) es).core.nextPtr ∧
      (∀ x, x < c.nextPtr →
        (∀ e ∈ es, ∀ q, mapFind cm e.1 = some q → e.2 = q ∨ x ≠ q) →
        (undoPhase1 cm c (dpre ++ [t0]) es).core.heap x = c.heap x) ∧
      (∀ e ∈ es, ∀ q, mapFind cm e.1 = some q → e.2 ≠ q →
        (undoPhase1 cm c (dpre ++ [t0]) es).core.heap q = copyWithScene (c.heap e.2) (c.heap q)) ∧
      (undoPhase1 cm c (dpre ++ [t0]) es).adds =
        (es.filter (fun e => (mapFind cm e.1).isNone)).map Prod.snd ∧
      (∃ t1 : List Nat,
        (undoPhase1 cm c (dpre ++ [t0]) es).dst = dpre ++ [t1] ∧
        t1.length = t0.length ∧
        (∀ j : Nat, ∀ hj : j < t0.length, ∀ hj1 : j < t1.length,
          (undoPhase1 cm c (dpre ++ [t0]) es).core.heap (t1.get ⟨j, hj1⟩) =
            c.heap (t0.get ⟨j, hj⟩)) ∧
        (∀ x ∈ t1, x < (undoPhase1 cm c (dpre ++ [t0]) es).core.nextPtr) ∧
        (t0.Nodup → t1.Nodup) ∧
        (∀ x ∈ t1, x ∈ t0 ∨ c.nextPtr ≤ x))
  | [], c, dpre, t0, _, _, _, _, ht0 => by
    rw [undoPhase1_nil]
    refine ⟨rfl, rfl, rfl, rfl, rfl, le_refl _, fun x _ _ => rfl,
      fun e he => (List.not_mem_nil e he).elim, by simp, t0, rfl, rfl,
      fun j hj hj1 => rfl, ht0, id, fun x hx => Or.inl hx⟩
  | (k, p) :: rest, c, dpre, t0, hkeys, hsb, htb, hsrc, ht0 => by
    rw [List.map_cons, List.nodup_cons] at hkeys
    obtain ⟨hkx, hkeys'⟩ := hkeys
    rcases hfind : mapFind cm k with _ | q
    · -- ID not in the current map: collected into addNodes, state unchanged
      have hstep : undoPhase1 cm c (dpre ++ [t0]) ((k, p) :: rest) =
          ⟨(undoPhase1 cm c (dpre ++ [t0]) rest).core,
           (undoPhase1 cm c (dpre ++ [t0]) rest).dst,
           p :: (undoPhase1 cm c (dpre ++ [t0]) rest).adds⟩ := by
        simp only [undoPhase1, hfind]
      obtain ⟨ih1, ih2, ih3, ih4, ih5, ih6, ih7, ih8, ih9, t1, ihd1, ihd2, ihd3, ihd4, ihd5, ihd6⟩ :=
        undoPhase1_spec cm hcmInj rest c dpre t0 hkeys'
          (fun e he => hsb e (List.mem_cons_of_mem _ he))
          (fun e he => htb e (List.mem_cons_of_mem _ he))
          (fun e he => hsrc e (List.mem_cons_of_mem _ he)) ht0
      rw [hstep]
      refine ⟨ih1, ih2, ih3, ih4, ih5, ih6, ?_, ?_, ?_, t1, ihd1, ihd2, ihd3, ihd4, ihd5, ihd6⟩
      · intro x hx hcond
        exact ih7 x hx (fun e he => hcond e (List.mem_cons_of_mem _ he))
      · intro e he q2 hq2 hne
        rcases List.mem_cons.mp he with rfl | he2
        · rw [hfind] at hq2
          exact absurd hq2 (by simp)
        · exact ih8 e he2 q2 hq2 hne
      · rw [List.filter_cons, show ((mapFind cm (k, p).1).isNone = true) from by
          simp [hfind]]
        simp only [if_pos]
        rw [List.map_cons, ih9]
    · by_cases hpq : p = q
      · -- same node object on both sides: nothing happens
        have hstep : undoPhase1 cm c (dpre ++ [t0]) ((k, p) :: rest) =
            undoPhase1 cm c (dpre ++ [t0]) rest := by
          simp only [undoPhase1, hfind]
          rw [if_pos hpq]
        obtain ⟨ih1, ih2, ih3, ih4, ih5, ih6, ih7, ih8, ih9, t1, ihd1, ihd2, ihd3, ihd4, ihd5, ihd6⟩ :=
          undoPhase1_spec cm hcmInj rest c dpre t0 hkeys'
            (fun e he => hsb e (List.mem_cons_of_mem _ he))
            (fun e he => htb e (List.mem_cons_of_mem _ he))
            (fun e he => hsrc e (List.mem_cons_of_mem _ he)) ht0
        rw [hstep]
        refine ⟨ih1, ih2, ih3, ih4, ih5, ih6, ?_, ?_, ?_, t1, ihd1, ihd2, ihd3, ihd4, ihd5, ihd6⟩
        · intro x hx hcond
          exact ih7 x hx (fun e he => hcond e (List.mem_cons_of_mem _ he))
        · intro e he q2 hq2 hne
          rcases List.mem_cons.mp he with rfl | he2
          · rw [hfind] at hq2
            obtain rfl := Option.some_inj.mp hq2
            exact absurd hpq hne
          · exact ih8 e he2 q2 hq2 hne
        · rw [List.filter_cons, show ((mapFind cm (k, p).1).isNone = false) from by
            simp [hfind]]
          simp only [Bool.false_eq_true, if_false]
          exact ih9
      · -- differing objects: snapshot the current node, copy saved state over it
        have hp_lt : p < c.nextPtr := hsb (k, p) (List.mem_cons_self _ _)
        have hq_lt : q < c.nextPtr := htb (k, p) (List.mem_cons_self _ _) q hfind
        have hpf : p ≠ c.nextPtr := by omega
        have hqf : q ≠ c.nextPtr := by omega
        have hstep := undoPhase1_cons_copy cm c dpre t0 k p q rest hfind hpq hpf hqf
        set cS : SceneCore :=
          { c with heap := fun x => if x = q then copyWithScene (c.heap p) (c.heap q)
                                    else if x = c.nextPtr then c.heap q else c.heap x,
                   nextPtr := c.nextPtr + 1 } with hcS
        have hcSnext : cS.nextPtr = c.nextPtr + 1 := rfl
        have hSheap_frame : ∀ x, x ≠ q → x ≠ c.nextPtr → cS.heap x = c.heap x := by
          intro x h1 h2
          show (if x = q then _ else if x = c.nextPtr then _ else c.heap x) = c.heap x
          rw [if_neg h1, if_neg h2]
        have hSheap_q : cS.heap q = copyWithScene (c.heap p) (c.heap q) := by
          show (if q = q then _ else _) = _
          rw [if_pos rfl]
        have hSheap_f : cS.heap c.nextPtr = c.heap q := by
          show (if c.nextPtr = q then _ else if c.nextPtr = c.nextPtr then _ else _) = _
          rw [if_neg (fun h => hqf h.symm), if_pos rfl]
        have hrestq : ∀ e ∈ rest, ∀ q2, mapFind cm e.1 = some q2 → q2 ≠ q := by
          intro e he q2 hq2 hq2q
          apply hkx
          rw [List.mem_map]
          refine ⟨e, he, ?_⟩
          subst hq2q
          exact (hcmInj e.1 k q2 hq2 hfind).symm ▸ rfl
        have hrest_src_ne_q : ∀ e ∈ rest, ∀ q2, mapFind cm e.1 = some q2 → e.2 ≠ q2 →
            e.2 ≠ q := by
          intro e he q2 hq2 hne h2
          exact hsrc e (List.mem_cons_of_mem _ he) q2 hq2 hne k (h2 ▸ hfind)
        obtain ⟨ih1, ih2, ih3, ih4, ih5, ih6, ih7, ih8, ih9, t1, ihd1, ihd2, ihd3, ihd4, ihd5, ihd6⟩ :=
          undoPhase1_spec cm hcmInj rest cS dpre
            (t0.map (fun x => if x = q then c.nextPtr else x)) hkeys'
            (fun e he => lt_trans (hsb e (List.mem_cons_of_mem _ he)) (by omega))
            (fun e he q2 hq2 => lt_trans (htb e (List.mem_cons_of_mem _ he) q2 hq2) (by omega))
            (fun e he => hsrc e (List.mem_cons_of_mem _ he))
            (by
              intro x hx
              rw [List.mem_map] at hx
              obtain ⟨y, hy, rfl⟩ := hx
              by_cases hyq : y = q
              · rw [if_pos hyq]
                omega
              · rw [if_neg hyq]
                exact lt_trans (ht0 y hy) (by omega))
        rw [hstep]
        refine ⟨by rw [ih1], by rw [ih2], by rw [ih3], by rw [ih4], by rw [ih5],
          le_trans (by omega) ih6, ?_, ?_, ?_, t1, ihd1, by rw [ihd2, List.length_map], ?_,
          ihd4, ?_, ?_⟩
        · -- frame
          intro x hx hcond
          have hxq : x ≠ q := by
            rcases hcond (k, p) (List.mem_cons_self _ _) q hfind with h | h
            · exact absurd h hpq
            · exact h
          rw [ih7 x (by omega) (fun e he => hcond e (List.mem_cons_of_mem _ he))]
          exact hSheap_frame x hxq (by omega)
        · -- copy
          intro e he q2 hq2 hne
          rcases List.mem_cons.mp he with rfl | he2
          · rw [hfind] at hq2
            have hq2eq : q = q2 := Option.some_inj.mp hq2
            subst hq2eq
            rw [ih7 q (by omega) (fun e2 he2 q3 hq3 => Or.inr (Ne.symm (hrestq e2 he2 q3 hq3)))]
            exact hSheap_q
          · have hq2q : q2 ≠ q := hrestq e he2 q2 hq2
            have he2q : e.2 ≠ q := hrest_src_ne_q e he2 q2 hq2 hne
            have he2f : e.2 ≠ c.nextPtr := by
              have := hsb e (List.mem_cons_of_mem _ he2)
              omega
            have hq2f : q2 ≠ c.nextPtr := by
              have := htb e (List.mem_cons_of_mem _ he2) q2 hq2
              omega
            rw [ih8 e he2 q2 hq2 hne, hSheap_frame e.2 he2q he2f, hSheap_frame q2 hq2q hq2f]
        · -- adds
          rw [List.filter_cons, show ((mapFind cm (k, p).1).isNone = false) from by
            simp [hfind]]
          simp only [Bool.false_eq_true, if_false]
          exact ih9
        · -- pointwise stack-top heap preservation
          intro j hj hj1
          have hjm : j < (t0.map (fun x => if x = q then c.nextPtr else x)).length := by
            rw [List.length_map]
            exact hj
          rw [ihd3 j hjm hj1]
          have hget : (t0.map (fun x => if x = q then c.nextPtr else x)).get ⟨j, hjm⟩ =
              if t0.get ⟨j, hj⟩ = q then c.nextPtr else t0.get ⟨j, hj⟩ := by
            simp
          rw [hget]
          by_cases hyq : t0.get ⟨j, hj⟩ = q
          · rw [if_pos hyq, hSheap_f, hyq]
          · rw [if_neg hyq]
            exact hSheap_frame _ hyq (by have := ht0 _ (t0.get_mem j hj); omega)
        · -- Nodup of the evolved stack top
          intro hnd
          apply ihd5
          refine List.Nodup.map_on ?_ hnd
          intro x hx y hy hxy
          by_cases hxq : x = q
          · by_cases hyq : y = q
            · rw [hxq, hyq]
            · rw [if_pos hxq, if_neg hyq] at hxy
              exact absurd hxy.symm (by have := ht0 y hy; omega)
          · by_cases hyq : y = q
            · rw [if_neg hxq, if_pos hyq] at hxy
              exact absurd hxy (by have := ht0 x hx; omega)
            · rwa [if_neg hxq, if_neg hyq] at hxy
        · -- provenance of the evolved stack top
          intro x hx
          rcases ihd6 x hx with hx2 | hx2
          · rw [List.mem_map] at hx2
            obtain ⟨y, hy, rfl⟩ := hx2
            by_cases hyq : y = q
            · rw [if_pos hyq]
              exact Or.inr (le_refl _)
            · rw [if_neg hyq]
              exact Or.inl hy
          · exact Or.inr (by omega)

/-! ### The full `Undo`/`Redo` restore -/

theorem copyWithScene_fields (src tgt : Node) :
    (copyWithScene src tgt).addToScene = src.addToScene ∧
    (copyWithScene src tgt).singletonTag = src.singletonTag ∧
    ((copyWithScene src tgt).id = match src.id with | some i => some i | none => tgt.id) :=
  ⟨rfl, rfl, rfl⟩

theorem copyWithScene_id_of_some {src : Node} (tgt : Node) {i : String}
    (h : src.id = some i) : (copyWithScene src tgt).id = src.id := by
  unfold copyWithScene
  rw [h]

theorem WFNode_copy {src : Node} (tgt : Node) (h : WFNode src) :
    WFNode (copyWithScene src tgt) ∧ idKey (copyWithScene src tgt) = idKey src := by
  obtain ⟨h1, h2, h3, h4⟩ := h
  obtain ⟨i, hi⟩ := Option.ne_none_iff_exists'.mp h1
  have hid := @copyWithScene_id_of_some src tgt i hi
  have hkey : idKey (copyWithScene src tgt) = idKey src := by unfold idKey; rw [hid]
  exact ⟨⟨by rw [hid]; exact h1, by rw [hkey]; exact h2, h3, h4⟩, hkey⟩

theorem WFNode_nameFix {n : Node} (h : WFNode n) :
    WFNode (nameFix n) ∧ idKey (nameFix n) = idKey n := by
  obtain ⟨hf1, hf2, hf3⟩ := nameFix_fields n
  exact ⟨⟨by rw [hf1]; exact h.1, by rw [idKey_nameFix]; exact h.2.1,
    by rw [hf2]; exact h.2.2.1, by rw [hf3]; exact h.2.2.2⟩, idKey_nameFix n⟩

theorem restore_spec (c : SceneCore) (us dst : List (List Nat)) (top : List Nat)
    (hWFc : WFL c.heap c.currentScene) (hWFt : WFL c.heap top)
    (hbc : ∀ x ∈ c.currentScene, x < c.nextPtr) (hbt : ∀ x ∈ top, x < c.nextPtr) :
    (restoreStacks c (us ++ [top]) dst).2.1 = us ∧
    c.nextPtr ≤ (restoreStacks c (us ++ [top]) dst).1.nextPtr ∧
    WFL (restoreStacks c (us ++ [top]) dst).1.heap
      (restoreStacks c (us ++ [top]) dst).1.currentScene ∧
    (∀ x ∈ (restoreStacks c (us ++ [top]) dst).1.currentScene,
      x < (restoreStacks c (us ++ [top]) dst).1.nextPtr) ∧
    (∀ k, (∃ x ∈ (restoreStacks c (us ++ [top]) dst).1.currentScene,
        idKey ((restoreStacks c (us ++ [top]) dst).1.heap x) = k) ↔
      (∃ p ∈ top, idKey (c.heap p) = k)) ∧
    (∀ p ∈ top, (∀ x ∈ c.currentScene, idKey (c.heap x) ≠ idKey (c.heap p)) →
      p ∈ (restoreStacks c (us ++ [top]) dst).1.currentScene ∧
      ((restoreStacks c (us ++ [top]) dst).1.heap p).id = (c.heap p).id) ∧
    (∀ x ∈ c.currentScene, (∀ p ∈ top, idKey (c.heap p) ≠ idKey (c.heap x)) →
      x ∉ (restoreStacks c (us ++ [top]) dst).1.currentScene) ∧
    (∀ p ∈ top, ∀ x ∈ c.currentScene, idKey (c.heap p) = idKey (c.heap x) → p ≠ x →
      (restoreStacks c (us ++ [top]) dst).1.heap x = copyWithScene (c.heap p) (c.heap x)) ∧
    (∃ t1 : List Nat,
      (restoreStacks c (us ++ [top]) dst).2.2 = dst ++ [t1] ∧
      t1.map (fun x => idKey ((restoreStacks c (us ++ [top]) dst).1.heap x)) =
        c.currentScene.map (fun x => idKey (c.heap x)) ∧
      WFL (restoreStacks c (us ++ [top]) dst).1.heap t1 ∧
      (∀ x ∈ t1, x < (restoreStacks c (us ++ [top]) dst).1.nextPtr)) := by
  obtain ⟨hndc, hWFc2, hpwc⟩ := hWFc
  obtain ⟨hndt, hWFt2, hpwt⟩ := hWFt
  set cm := buildIdMap c.heap c.currentScene with hcm
  set sm := buildIdMap c.heap top with hsm
  -- map characterisations
  have hcmFindSome : ∀ k x, mapFind cm k = some x ↔ x ∈ c.currentScene ∧ idKey (c.heap x) = k :=
    buildIdMap_find_some c.heap c.currentScene hpwc
  have hcmFindNone : ∀ k, mapFind cm k = none ↔ ∀ x ∈ c.currentScene, idKey (c.heap x) ≠ k :=
    buildIdMap_find_none c.heap c.currentScene hpwc
  have hsmFindSome : ∀ k p, mapFind sm k = some p ↔ p ∈ top ∧ idKey (c.heap p) = k :=
    buildIdMap_find_some c.heap top hpwt
  have hsmFindNone : ∀ k, mapFind sm k = none ↔ ∀ p ∈ top, idKey (c.heap p) ≠ k :=
    buildIdMap_find_none c.heap top hpwt
  have hsmMem : ∀ e, e ∈ sm ↔ ∃ p ∈ top, e = (idKey (c.heap p), p) :=
    buildIdMap_mem c.heap top hpwt
  have hcmMem : ∀ e, e ∈ cm ↔ ∃ x ∈ c.currentScene, e = (idKey (c.heap x), x) :=
    buildIdMap_mem c.heap c.currentScene hpwc
  have hcmInj : ∀ k k2 q, mapFind cm k = some q → mapFind cm k2 = some q → k = k2 := by
    intro k k2 q h1 h2
    obtain ⟨-, hk⟩ := (hcmFindSome k q).mp h1
    obtain ⟨-, hk2⟩ := (hcmFindSome k2 q).mp h2
    rw [← hk, ← hk2]
  -- every key of sm is the key of its value, a member of top
  have hsmVal : ∀ e ∈ sm, e.2 ∈ top ∧ e.1 = idKey (c.heap e.2) := by
    intro e he
    obtain ⟨p, hp, rfl⟩ := (hsmMem e).mp he
    exact ⟨hp, rfl⟩
  have hcmVal : ∀ e ∈ cm, e.2 ∈ c.currentScene ∧ e.1 = idKey (c.heap e.2) := by
    intro e he
    obtain ⟨x, hx, rfl⟩ := (hcmMem e).mp he
    exact ⟨hx, rfl⟩
  -- phase-1 hypotheses
  have hsmKeys : (sm.map Prod.fst).Nodup := buildIdMap_keys_nodup c.heap top hpwt
  have hsb : ∀ e ∈ sm, e.2 < c.nextPtr := fun e he => hbt e.2 (hsmVal e he).1
  have htb : ∀ e ∈ sm, ∀ q, mapFind cm e.1 = some q → q < c.nextPtr := by
    intro e he q hq
    exact hbc q ((hcmFindSome e.1 q).mp hq).1
  have hsrc : ∀ e ∈ sm, ∀ q, mapFind cm e.1 = some q → e.2 ≠ q →
      ∀ k2, mapFind cm k2 ≠ some e.2 := by
    intro e he q hq hne k2 hk2
    obtain ⟨hin, hkey⟩ := (hcmFindSome k2 e.2).mp hk2
    obtain ⟨-, hek⟩ := hsmVal e he
    have : mapFind cm e.1 = some e.2 := (hcmFindSome e.1 e.2).mpr ⟨hin, by rw [← hek]⟩
    rw [hq] at this
    exact hne (Option.some_inj.mp this).symm
  obtain ⟨p1, p2, p3, p4, p5, p6, p7, p8, p9, t1, d1, d2, d3, d4, d5, d6⟩ :=
    undoPhase1_spec cm hcmInj sm c dst c.currentScene hsmKeys hsb htb hsrc hbc
  set r0 := undoPhase1 cm c (dst ++ [c.currentScene]) sm with hr0
  set adds := (sm.filter (fun e => (mapFind cm e.1).isNone)).map Prod.snd with hadds
  set removes := (cm.filter (fun e => (mapFind sm e.1).isNone)).map Prod.snd with hremoves
  -- membership characterisations of the add/remove lists
  have hAddsMem : ∀ x, x ∈ adds ↔ x ∈ top ∧ ∀ y ∈ c.currentScene,
      idKey (c.heap y) ≠ idKey (c.heap x) := by
    intro x
    rw [hadds, List.mem_map]
    constructor
    · rintro ⟨e, hef, rfl⟩
      rw [List.mem_filter] at hef
      obtain ⟨he, hnone⟩ := hef
      obtain ⟨hin, hkey⟩ := hsmVal e he
      refine ⟨hin, ?_⟩
      have := Option.isNone_iff_eq_none.mp hnone
      rw [hcmFindNone] at this
      intro y hy
      have := this y hy
      rwa [hkey] at this
    · rintro ⟨hin, hfree⟩
      refine ⟨(idKey (c.heap x), x), ?_, rfl⟩
      rw [List.mem_filter]
      refine ⟨(hsmMem _).mpr ⟨x, hin, rfl⟩, ?_⟩
      rw [Option.isNone_iff_eq_none, hcmFindNone]
      exact hfree
  have hRemMem : ∀ x, x ∈ removes ↔ x ∈ c.currentScene ∧ ∀ p ∈ top,
      idKey (c.heap p) ≠ idKey (c.heap x) := by
    intro x
    rw [hremoves, List.mem_map]
    constructor
    · rintro ⟨e, hef, rfl⟩
      rw [List.mem_filter] at hef
      obtain ⟨he, hnone⟩ := hef
      obtain ⟨hin, hkey⟩ := hcmVal e he
      refine ⟨hin, ?_⟩
      have := Option.isNone_iff_eq_none.mp hnone
      rw [hsmFindNone] at this
      intro p hp
      have := this p hp
      rwa [hkey] at this
    · rintro ⟨hin, hfree⟩
      refine ⟨(idKey (c.heap x), x), ?_, rfl⟩
      rw [List.mem_filter]
      refine ⟨(hcmMem _).mpr ⟨x, hin, rfl⟩, ?_⟩
      rw [Option.isNone_iff_eq_none, hsmFindNone]
      exact hfree
  have hAddsTop : ∀ x ∈ adds, x ∈ top := fun x hx => ((hAddsMem x).mp hx).1
  have hAddsNotCur : ∀ x ∈ adds, x ∉ c.currentScene := by
    intro x hx hmem
    exact ((hAddsMem x).mp hx).2 x hmem rfl
  have hRemCur : ∀ x ∈ removes, x ∈ c.currentScene := fun x hx => ((hRemMem x).mp hx).1
  -- pairwise-distinct keys inside sm values, hence inside adds
  have hsmValPw : sm.Pairwise (fun a b => idKey (c.heap a.2) ≠ idKey (c.heap b.2)) := by
    have hks : KeysSorted sm := buildIdMap_sorted c.heap top hpwt
    rw [KeysSorted] at hks
    refine List.Pairwise.imp_of_mem ?_ hks
    intro a b ha hb hlt
    rw [← (hsmVal a ha).2, ← (hsmVal b hb).2]
    exact ne_of_lt hlt
  have hAddsPw : adds.Pairwise (fun a b => idKey (c.heap a) ≠ idKey (c.heap b)) := by
    rw [hadds, List.pairwise_map]
    exact (hsmValPw.sublist (List.filter_sublist sm))
  have hAddsNodup : adds.Nodup := by
    refine hAddsPw.imp ?_
    intro a b hne heq
    exact hne (heq ▸ rfl)
  -- the heap of the phase-1 output over the current scene
  have hP1KeyCur : ∀ x ∈ c.currentScene,
      idKey (r0.core.heap x) = idKey (c.heap x) ∧ WFNode (r0.core.heap x) := by
    intro x hx
    by_cases hsh : ∃ p ∈ top, idKey (c.heap p) = idKey (c.heap x) ∧ p ≠ x
    · obtain ⟨p, hp, hkey, hne⟩ := hsh
      have hfind : mapFind cm (idKey (c.heap p)) = some x :=
        (hcmFindSome _ x).mpr ⟨hx, hkey.symm⟩
      have hcopy := p8 (idKey (c.heap p), p) ((hsmMem _).mpr ⟨p, hp, rfl⟩) x hfind hne
      rw [hcopy]
      obtain ⟨hwf, hk⟩ := WFNode_copy (c.heap x) (hWFt2 p hp)
      exact ⟨by rw [hk, hkey], hwf⟩
    · have hframe := p7 x (hbc x hx) ?_
      · rw [hframe]
        exact ⟨rfl, hWFc2 x hx⟩
      · intro e he q hq
        obtain ⟨hin, hkey⟩ := (hcmFindSome e.1 q).mp hq
        by_cases hqx : q = x
        · subst hqx
          obtain ⟨hetop, hek⟩ := hsmVal e he
          by_cases hex : e.2 = q
          · exact Or.inl hex
          · exfalso
            apply hsh
            exact ⟨e.2, hetop, by rw [← hek, hkey], hex⟩
        · exact Or.inr (fun h => hqx h.symm)
  have hP1Adds : ∀ p ∈ adds, r0.core.heap p = c.heap p := by
    intro p hp
    apply p7 p (hbt p (hAddsTop p hp))
    intro e he q hq
    have hq2 := (hcmFindSome e.1 q).mp hq
    exact Or.inr (fun h => hAddsNotCur p hp (h ▸ hq2.1))
  -- the fold of AddNode over the collected nodes
  have hAddsWF : ∀ p ∈ adds, WFNode (r0.core.heap p) := by
    intro p hp
    rw [hP1Adds p hp]
    exact hWFt2 p (hAddsTop p hp)
  have hAddsFr : ∀ p ∈ adds, ∀ x ∈ r0.core.currentScene,
      idKey (r0.core.heap x) ≠ idKey (r0.core.heap p) := by
    intro p hp x hx
    rw [p1] at hx
    rw [hP1Adds p hp, (hP1KeyCur x hx).1]
    exact ((hAddsMem p).mp hp).2 x hx
  have hAddsPw2 : adds.Pairwise (fun a b => idKey (r0.core.heap a) ≠ idKey (r0.core.heap b)) := by
    refine List.Pairwise.imp_of_mem ?_ hAddsPw
    intro a b ha hb hne
    rw [hP1Adds a ha, hP1Adds b hb]
    exact hne
  have hAddsSceneEq : r0.core.currentScene = c.currentScene := p1
  obtain ⟨a1, a2, a3, a4, a5, a6⟩ := addNodes_spec adds r0.core hAddsNodup hAddsWF
    (by rw [hAddsSceneEq] at hAddsFr ⊢; exact hAddsFr) hAddsPw2
  set cA := adds.foldl (fun cc q => (addNode cc q).1) r0.core with hcA
  obtain ⟨m1, m2, m3, m4, m5⟩ := removeNodes_spec removes cA
  set cB := removes.foldl removeNode cA with hcB
  -- the final collection is a filter of current ++ adds
  have hndca : (c.currentScene ++ adds).Nodup := by
    rw [List.nodup_append]
    exact ⟨hndc, hAddsNodup, fun x hx hx2 => hAddsNotCur x hx2 hx⟩
  have hSceneB : cB.currentScene =
      (c.currentScene ++ adds).filter (fun x => decide (x ∉ removes)) := by
    rw [hcB] at m5 ⊢
    rw [m5, a1, hAddsSceneEq, foldl_erase_filter removes _ hndca]
  -- heap stability from phase-1 output to the end, off the add list
  have hHeapBA : ∀ x, x ∉ adds → cB.heap x = r0.core.heap x := by
    intro x hx
    rw [hcB] at m1 ⊢
    rw [m1, a2 x hx]
  have hHeapBAdds : ∀ p ∈ adds, cB.heap p = nameFix (c.heap p) := by
    intro p hp
    rw [hcB] at m1 ⊢
    rw [m1, a3 p hp, hP1Adds p hp]
  have hNextB : cB.nextPtr = r0.core.nextPtr := by
    rw [hcB] at m2 ⊢
    rw [m2, a4]
  -- unfold restoreStacks
  have hmain : restoreStacks c (us ++ [top]) dst = (cB, us, r0.dst) := by
    show restoreStacks c (us ++ [top]) dst = _
    unfold restoreStacks
    simp only [List.getLast?_concat, List.dropLast_concat]
    rw [← hcm, ← hsm, ← hr0, p9, ← hremoves, ← hcA, ← hcB]
  rw [hmain]
  -- final key values over the two halves
  have hKeyB_cur : ∀ x ∈ c.currentScene,
      idKey (cB.heap x) = idKey (c.heap x) ∧ WFNode (cB.heap x) := by
    intro x hx
    rw [hHeapBA x (fun hc => hAddsNotCur x hc hx)]
    exact ⟨(hP1KeyCur x hx).1, (hP1KeyCur x hx).2⟩
  have hKeyB_adds : ∀ p ∈ adds, idKey (cB.heap p) = idKey (c.heap p) ∧ WFNode (cB.heap p) := by
    intro p hp
    rw [hHeapBAdds p hp]
    obtain ⟨hwf, hk⟩ := WFNode_nameFix (hWFt2 p (hAddsTop p hp))
    exact ⟨hk, hwf⟩
  have hMemB : ∀ x, x ∈ cB.currentScene ↔
      ((x ∈ c.currentScene ∨ x ∈ adds) ∧ x ∉ removes) := by
    intro x
    rw [hSceneB, List.mem_filter, List.mem_append]
    simp
  -- cross-half key facts
  have hKeyCross : ∀ x ∈ c.currentScene, ∀ p ∈ adds,
      idKey (cB.heap x) ≠ idKey (cB.heap p) := by
    intro x hx p hp
    rw [(hKeyB_cur x hx).1, (hKeyB_adds p hp).1]
    exact ((hAddsMem p).mp hp).2 x hx
  have hpwca : (c.currentScene ++ adds).Pairwise
      (fun a b => idKey (cB.heap a) ≠ idKey (cB.heap b)) := by
    rw [List.pairwise_append]
    refine ⟨?_, ?_, fun x hx p hp => hKeyCross x hx p hp⟩
    · refine List.Pairwise.imp_of_mem ?_ hpwc
      intro a b ha hb hne
      rw [(hKeyB_cur a ha).1, (hKeyB_cur b hb).1]
      exact hne
    · refine List.Pairwise.imp_of_mem ?_ hAddsPw
      intro a b ha hb hne
      rw [(hKeyB_adds a ha).1, (hKeyB_adds b hb).1]
      exact hne
  have hBoundsB : ∀ x, (x ∈ c.currentScene ∨ x ∈ adds) → x < cB.nextPtr := by
    intro x hor
    rw [hNextB]
    rcases hor with hc | ha
    · exact lt_of_lt_of_le (hbc x hc) p6
    · exact lt_of_lt_of_le (hbt x (hAddsTop x ha)) p6
  have hInScene : ∀ p ∈ adds, p ∈ cB.currentScene := by
    intro p hp
    rw [hMemB]
    refine ⟨Or.inr hp, fun hr => hAddsNotCur p hp (hRemCur p hr)⟩
  refine ⟨rfl, ?_, ?_, ?_, ?_, ?_, ?_, ?_, ?_⟩
  · -- nextPtr grows
    rw [hNextB]
    exact p6
  · -- WFL of the final scene
    refine ⟨by rw [hSceneB]; exact hndca.filter _, ?_, ?_⟩
    · intro x hx
      rcases (hMemB x).mp hx with ⟨hor, hnr⟩
      rcases hor with hc | ha
      · exact (hKeyB_cur x hc).2
      · exact (hKeyB_adds x ha).2
    · rw [hSceneB]
      exact hpwca.sublist (List.filter_sublist _)
  · -- pointer bounds of the final scene
    intro x hx
    rcases (hMemB x).mp hx with ⟨hor, -⟩
    exact hBoundsB x hor
  · -- the final ID set is the ID set of the restored stack entry
    intro k
    constructor
    · rintro ⟨x, hx, rfl⟩
      rcases (hMemB x).mp hx with ⟨hor, hnr⟩
      rcases hor with hc | ha
      · have hnall : ¬ ∀ p ∈ top, idKey (c.heap p) ≠ idKey (c.heap x) :=
          fun hall => hnr ((hRemMem x).mpr ⟨hc, hall⟩)
        push_neg at hnall
        obtain ⟨p, hp, heq⟩ := hnall
        exact ⟨p, hp, by rw [heq, (hKeyB_cur x hc).1]⟩
      · exact ⟨x, hAddsTop x ha, ((hKeyB_adds x ha).1).symm⟩
    · rintro ⟨p, hp, rfl⟩
      by_cases hex : ∃ x ∈ c.currentScene, idKey (c.heap x) = idKey (c.heap p)
      · obtain ⟨x, hx, heq⟩ := hex
        have hnr : x ∉ removes := by
          intro hr
          exact ((hRemMem x).mp hr).2 p hp heq.symm
        refine ⟨x, (hMemB x).mpr ⟨Or.inl hx, hnr⟩, ?_⟩
        rw [(hKeyB_cur x hx).1, heq]
      · push_neg at hex
        have hpa : p ∈ adds := (hAddsMem p).mpr ⟨hp, hex⟩
        exact ⟨p, hInScene p hpa, (hKeyB_adds p hpa).1⟩
  · -- a saved-only node is added back, ID intact
    intro p hp hfree
    have hpa : p ∈ adds := (hAddsMem p).mpr ⟨hp, hfree⟩
    refine ⟨hInScene p hpa, ?_⟩
    rw [hHeapBAdds p hpa]
    exact (nameFix_fields (c.heap p)).1
  · -- a current-only node is removed
    intro x hx hfree
    intro hmem
    rcases (hMemB x).mp hmem with ⟨-, hnr⟩
    exact hnr ((hRemMem x).mpr ⟨hx, hfree⟩)
  · -- a shared ID with differing objects receives the saved contents
    intro p hp x hx hkeys hne
    have hfind : mapFind cm (idKey (c.heap p)) = some x :=
      (hcmFindSome _ x).mpr ⟨hx, hkeys.symm⟩
    have hcopy := p8 (idKey (c.heap p), p) ((hsmMem _).mpr ⟨p, hp, rfl⟩) x hfind hne
    rw [hHeapBA x (fun hc2 => hAddsNotCur x hc2 hx)]
    exact hcopy
  · -- the entry pushed onto the destination stack mirrors the pre-restore scene
    have hT1NotAdds : ∀ x ∈ t1, x ∉ adds := by
      intro x hxt hxa
      rcases d6 x hxt with hxc | hxge
      · exact hAddsNotCur x hxa hxc
      · exact absurd hxge (by have := hbt x (hAddsTop x hxa); omega)
    have hT1Point : ∀ j, ∀ hj1 : j < t1.length,
        cB.heap (t1.get ⟨j, hj1⟩) = c.heap (c.currentScene.get ⟨j, by
          rw [← d2]; exact hj1⟩) := by
      intro j hj1
      rw [hHeapBA _ (hT1NotAdds _ (t1.get_mem j hj1))]
      exact d3 j (by rw [← d2]; exact hj1) hj1
    have hMapEq : t1.map (fun x => idKey (cB.heap x)) =
        c.currentScene.map (fun x => idKey (c.heap x)) := by
      apply List.ext_getElem
      · rw [List.length_map, List.length_map, d2]
      · intro j hj1 hj2
        rw [List.getElem_map, List.getElem_map]
        have hj1m : j < t1.length := by rw [List.length_map] at hj1; exact hj1
        have hj2m : j < c.currentScene.length := by rw [List.length_map] at hj2; exact hj2
        have h3 := hT1Point j hj1m
        rw [List.get_eq_getElem, List.get_eq_getElem] at h3
        exact congrArg idKey h3
    have hpwT1 : t1.Pairwise (fun a b => idKey (cB.heap a) ≠ idKey (cB.heap b)) := by
      have h1 : (t1.map (fun x => idKey (cB.heap x))).Pairwise (· ≠ ·) := by
        rw [hMapEq]
        exact List.pairwise_map.mpr hpwc
      exact List.pairwise_map.mp h1
    refine ⟨t1, d1, hMapEq, ⟨d5 hndc, ?_, hpwT1⟩, ?_⟩
    · intro x hxt
      obtain ⟨⟨j, hj⟩, rfl⟩ := List.mem_iff_get.mp hxt
      rw [hT1Point j hj]
      exact hWFc2 _ (c.currentScene.get_mem _ _)
    · intro x hxt
      rw [hNextB]
      exact d4 x hxt

/-! ### Erase-fold lemmas for `Clear` -/

theorem foldl_erase_cons_of_not_mem {α : Type} [DecidableEq α] :
    ∀ (rs : List α) (l : List α) (a : α), a ∉ rs →
      rs.foldl List.erase (a :: l) = a :: rs.foldl List.erase l
  | [], _, _, _ => rfl
  | r :: rs, l, a, hna => by
    rw [List.foldl_cons, List.foldl_cons]
    have hra : a ≠ r := fun h => hna (h ▸ List.mem_cons_self _ _)
    rw [List.erase_cons_tail (by simp [hra])]
    exact foldl_erase_cons_of_not_mem rs (l.erase r) a
      (fun h => hna (List.mem_cons_of_mem _ h))

theorem filter_foldl_erase {α : Type} [DecidableEq α] (p : α → Bool) :
    ∀ l : List α, (l.filter p).foldl List.erase l = l.filter (fun x => !(p x))
  | [] => rfl
  | a :: t => by
    by_cases hpa : p a
    · rw [List.filter_cons_of_pos hpa, List.foldl_cons, List.erase_cons_head,
        filter_foldl_erase p t, List.filter_cons_of_neg (by simp [hpa])]
    · have hpa' : p a = false := Bool.not_eq_true _ ▸ eq_false_of_ne_true hpa
      rw [List.filter_cons_of_neg (by simp [hpa']), List.filter_cons_of_pos (by simp [hpa'])]
      have hna : a ∉ t.filter p := fun h => hpa (List.of_mem_filter h)
      rw [foldl_erase_cons_of_not_mem (t.filter p) t a hna, filter_foldl_erase p t]

/-! ### Claim C9 -/

/-- C9: `Clear(0)` removes from the scene exactly the nodes whose singleton
tag is NULL, `Reset`s the surviving singleton-tagged nodes, and `Clear` with a
nonzero argument removes every node; both variants empty the undo stack, the
redo stack and the per-class unique-ID table. -/
theorem C9_clear_spec (s : Scene) :
    (s.clear 0).core.currentScene =
      s.core.currentScene.filter (fun p => !(s.core.heap p).singletonTag.isNone) ∧
    (∀ p ∈ (s.clear 0).core.currentScene,
      (s.clear 0).core.heap p = resetNode (s.core.heap p)) ∧
    (s.clear 0).undoStack = [] ∧ (s.clear 0).redoStack = [] ∧
    (s.clear 0).core.uniqueIDByClass = [] ∧
    (∀ r : Int, r ≠ 0 → (s.clear r).core.currentScene = [] ∧ (s.clear r).undoStack = [] ∧
      (s.clear r).redoStack = [] ∧ (s.clear r).core.uniqueIDByClass = []) := by
  have hremAll : removeAllNodesExceptSingletons s.core =
      { s.core with currentScene :=
          s.core.currentScene.filter (fun p => !(s.core.heap p).singletonTag.isNone) } := by
    simp only [removeAllNodesExceptSingletons]
    rw [filter_foldl_erase]
  have hclear0 : s.clear 0 =
      { s with
        core := { resetNodes (removeAllNodesExceptSingletons s.core) with
                  referencedIDs := [], referencingNodes := [], referencedIDChanges := [],
                  uniqueIDByClass := [] },
        undoStack := [], redoStack := [], undoFlag := true } := by
    simp only [Scene.clear, clearReferencedNodeID, if_pos]
  have hclearR : ∀ r : Int, r ≠ 0 → s.clear r =
      { s with
        core := { s.core with
                  currentScene := [], referencedIDs := [], referencingNodes := [],
                  referencedIDChanges := [], uniqueIDByClass := [] },
        undoStack := [], redoStack := [], undoFlag := true } := by
    intro r hr
    simp only [Scene.clear, clearReferencedNodeID, if_neg hr]
  refine ⟨?_, ?_, by rw [hclear0], by rw [hclear0], by rw [hclear0], ?_⟩
  · rw [hclear0, hremAll]
    rfl
  · intro p hp
    have hp2 : p ∈ (removeAllNodesExceptSingletons s.core).currentScene := by
      rw [hclear0] at hp
      exact hp
    have hcontains : (removeAllNodesExceptSingletons s.core).currentScene.contains p = true :=
      List.elem_eq_true_of_mem hp2
    rw [hclear0]
    show (if (removeAllNodesExceptSingletons s.core).currentScene.contains p = true
          then resetNode ((removeAllNodesExceptSingletons s.core).heap p)
          else (removeAllNodesExceptSingletons s.core).heap p) = resetNode (s.core.heap p)
    rw [if_pos hcontains, hremAll]
  · intro r hr
    rw [hclearR r hr]
    exact ⟨rfl, rfl, rfl, rfl⟩

/-- C9 witness: on a scene with one singleton and one ordinary node, `Clear(0)`
keeps exactly the singleton (reset), and `Clear(1)` empties the collection;
both clear the stacks and the unique-ID table. -/
theorem C9_witness :
    (c9Scene.clear 0).core.currentScene = [0] ∧
    (c9Scene.clear 0).core.heap 0 = resetNode singNodeA ∧
    (c9Scene.clear 0).undoStack = [] ∧ (c9Scene.clear 0).redoStack = [] ∧
    (c9Scene.clear 0).core.uniqueIDByClass = [] ∧
    (c9Scene.clear 1).core.currentScene = [] := by
  obtain ⟨h1, h2, h3, h4, h5, h6⟩ := C9_clear_spec c9Scene
  obtain ⟨h7, -, -, -⟩ := h6 1 (by decide)
  refine ⟨by rw [h1]; decide, ?_, h3, h4, h5, h7⟩
  have h8 := h2 0 (by rw [h1]; decide)
  rw [h8]
  decide

/-! ### Claim C10 -/

/-- C10: `Commit` returns 1 both on success and on an open failure; the open
failure is reported only through the scene's error code (a nonzero value,
2) and leaves nothing written, while success writes the document and resets
the error code to zero. -/
theorem C10_commit_error_code (s : Scene) (url : Option String) :
    (commit s url true).2.1 = 1 ∧ (commit s url false).2.1 = 1 ∧
    (commit s url true).1.errorCode = 2 ∧ (commit s url true).1.errorCode ≠ 0 ∧
    (commit s url true).2.2 = none ∧
    (commit s url false).1.errorCode = 0 ∧
    (commit s url false).2.2 = some (commitOutput s.core) :=
  ⟨rfl, rfl, rfl, by show (2 : Nat) ≠ 0; omega, rfl, rfl, rfl⟩

/-! ### Claim C5 -/

theorem commitLoop_filter (h : Nat → Node) :
    ∀ (l : List Nat) (ind : Int),
      commitLoop h l ind = savedNodeElements h (l.filter (fun p => (h p).saveWithScene)) ind
  | [], _ => rfl
  | p :: rest, ind => by
    by_cases hs : (h p).saveWithScene
    · have hfc : (p :: rest).filter (fun q => (h q).saveWithScene) =
          p :: rest.filter (fun q => (h q).saveWithScene) := by
        simp [List.filter_cons, hs]
      rw [hfc]
      show commitLoop h (p :: rest) ind = _
      unfold commitLoop savedNodeElements
      simp only [hs, Bool.not_true, Bool.false_eq_true, if_false]
      rw [commitLoop_filter h rest]
    · have hs2 : (h p).saveWithScene = false := Bool.not_eq_true _ ▸ eq_false_of_ne_true hs
      have hfc : (p :: rest).filter (fun q => (h q).saveWithScene) =
          rest.filter (fun q => (h q).saveWithScene) := by
        simp [List.filter_cons, hs2]
      rw [hfc]
      show commitLoop h (p :: rest) ind = _
      unfold commitLoop
      simp only [hs2, Bool.not_false, if_true]
      rw [commitLoop_filter h rest]

/-- C5: on a writable url, `Commit` writes an XML document that is a `<MRML>`
root element containing, in scene order, exactly one element per node whose
`SaveWithScene` flag is set — each element opening and closing with the
node's tag name around the node's own attribute and body output — and
skipping the nodes whose flag is unset. -/
theorem C5_commit_document (s : Scene) (url : Option String) :
    (commit s url false).2.2 =
      some ("<MRML>\n" ++
        savedNodeElements s.core.heap
          (s.core.currentScene.filter (fun p => (s.core.heap p).saveWithScene)) 0 ++
        "</MRML>\n") := by
  show some (commitOutput s.core) = _
  unfold commitOutput
  rw [commitLoop_filter]

/-! ### Claim C6 -/

/-- C6 counterexample: the claim that both pipeline classes provide
`ProcessRequest`, `RequestData`, `RequestInformation` and
`RequestUpdateExtent` fails on `vtkDataObject`, which declares none of the
four. -/
theorem C6_counterexample :
    ¬(providesExecRequestProtocol vtkHyperTreeGridAlgorithmMembers = true ∧
      providesExecRequestProtocol vtkDataObjectMembers = true) := by decide

/-- C6 (amended): `vtkHyperTreeGridAlgorithm` provides all four
execution-request protocol operations; `vtkDataObject` — a pre-pipeline-
refactor header — declares none of them, exposing `Update`,
`UpdateInformation` and related members instead. -/
theorem C6_protocol_members :
    providesExecRequestProtocol vtkHyperTreeGridAlgorithmMembers = true ∧
    providesExecRequestProtocol vtkDataObjectMembers = false ∧
    execRequestProtocol.all (fun m => !(vtkDataObjectMembers.contains m)) = true ∧
    vtkDataObjectMembers.contains "Update" = true ∧
    vtkDataObjectMembers.contains "UpdateInformation" = true := by decide

/-! ### Claim C7 -/

/-- C7: with an empty undo stack, `Undo()` returns without modifying any
scene state, and likewise `Redo()` with an empty redo stack. -/
theorem C7_empty_stack_noop (s : Scene) :
    (s.undoStack = [] → s.undo = s) ∧ (s.redoStack = [] → s.redo = s) := by
  constructor
  · intro h
    unfold Scene.undo
    rw [if_pos h]
  · intro h
    unfold Scene.redo
    rw [if_pos h]

/-- C7 witness: on the empty scene both operations are identities. -/
theorem C7_witness : sceneEmpty.undo = sceneEmpty ∧ sceneEmpty.redo = sceneEmpty :=
  ⟨(C7_empty_stack_noop sceneEmpty).1 rfl, (C7_empty_stack_noop sceneEmpty).2 rfl⟩

/-! ### Claims C1 and C2 -/

theorem scene_undo_unfold (s : Scene) (h : s.undoStack ≠ []) :
    s.undo = { s with core := (restoreStacks s.core s.undoStack s.redoStack).1,
                      undoStack := (restoreStacks s.core s.undoStack s.redoStack).2.1,
                      redoStack := (restoreStacks s.core s.undoStack s.redoStack).2.2,
                      inUndo := false } := by
  unfold Scene.undo
  rw [if_neg h]

theorem scene_redo_unfold (s : Scene) (h : s.redoStack ≠ []) :
    s.redo = { s with core := (restoreStacks s.core s.redoStack s.undoStack).1,
                      redoStack := (restoreStacks s.core s.redoStack s.undoStack).2.1,
                      undoStack := (restoreStacks s.core s.redoStack s.undoStack).2.2 } := by
  unfold Scene.redo
  rw [if_neg h]

theorem scene_undo_redo_unfold (s : Scene) (h1 : s.undoStack ≠ [])
    (h2 : (restoreStacks s.core s.undoStack s.redoStack).2.2 ≠ []) :
    (s.undo).redo = { s with
      core := (restoreStacks (restoreStacks s.core s.undoStack s.redoStack).1
                 (restoreStacks s.core s.undoStack s.redoStack).2.2
                 (restoreStacks s.core s.undoStack s.redoStack).2.1).1,
      redoStack := (restoreStacks (restoreStacks s.core s.undoStack s.redoStack).1
                 (restoreStacks s.core s.undoStack s.redoStack).2.2
                 (restoreStacks s.core s.undoStack s.redoStack).2.1).2.1,
      undoStack := (restoreStacks (restoreStacks s.core s.undoStack s.redoStack).1
                 (restoreStacks s.core s.undoStack s.redoStack).2.2
                 (restoreStacks s.core s.undoStack s.redoStack).2.1).2.2,
      inUndo := false } := by
  rw [scene_undo_unfold s h1]
  unfold Scene.redo
  dsimp only
  rw [if_neg h2]

/-- C1 counterexample: the claim fails as stated — here the only undo entry
holds a node whose `AddToScene` flag is unset and whose ID `A1` appears only
in the saved collection, yet after `Undo()` the scene is still empty (the
re-add goes through `AddNode`, which refuses the node), although the entry is
popped. -/
theorem C1_counterexample :
    cexSceneC1.undoStack = [[0]] ∧
    (cexSceneC1.core.heap 0).id = some "A1" ∧
    (cexSceneC1.core.heap 0).addToScene = false ∧
    cexSceneC1.core.currentScene = [] ∧
    (cexSceneC1.undo).core.currentScene = [] ∧
    (cexSceneC1.undo).undoStack = [] := by decide

/-- C1 (amended): for every scene whose undo stack is non-empty and whose
current collection and top undo entry hold well-formed nodes — `AddToScene`
set, no singleton tag, pairwise-distinct non-empty IDs, allocated pointers —
`Undo()` replaces the current node collection with the saved state: a node
whose ID appears only in the saved collection is added back (ID intact), a
node whose ID appears only in the current scene is removed, and for an ID
present in both where the node objects differ the saved node's contents are
copied into the current node; the top undo entry is then popped. -/
theorem C1_undo_restores_saved_state (s : Scene) (us : List (List Nat)) (top : List Nat)
    (hstack : s.undoStack = us ++ [top])
    (hWFc : WFL s.core.heap s.core.currentScene) (hWFt : WFL s.core.heap top)
    (hbc : ∀ x ∈ s.core.currentScene, x < s.core.nextPtr)
    (hbt : ∀ x ∈ top, x < s.core.nextPtr) :
    (∀ p ∈ top, (∀ x ∈ s.core.currentScene, idKey (s.core.heap x) ≠ idKey (s.core.heap p)) →
      p ∈ (s.undo).core.currentScene ∧ ((s.undo).core.heap p).id = (s.core.heap p).id) ∧
    (∀ x ∈ s.core.currentScene, (∀ p ∈ top, idKey (s.core.heap p) ≠ idKey (s.core.heap x)) →
      x ∉ (s.undo).core.currentScene) ∧
    (∀ p ∈ top, ∀ x ∈ s.core.currentScene,
      idKey (s.core.heap p) = idKey (s.core.heap x) → p ≠ x →
      (s.undo).core.heap x = copyWithScene (s.core.heap p) (s.core.heap x)) ∧
    (s.undo).undoStack = us := by
  have hne : s.undoStack ≠ [] := by rw [hstack]; simp
  have hu := scene_undo_unfold s hne
  rw [hstack] at hu
  obtain ⟨q1, q2, q3, q4, q5, q6, q7, q8, t1, e1, emap, eWF, eBnd⟩ :=
    restore_spec s.core us s.redoStack top hWFc hWFt hbc hbt
  rw [hu]
  exact ⟨q6, q7, q8, q1⟩

/-- C1 witness: in a concrete scene whose saved entry holds the node `B1`
while the collection holds `A1`, `Undo()` adds node 1 back, removes node 0,
and pops the stack. -/
theorem C1_witness :
    1 ∈ (wScene.undo).core.currentScene ∧ 0 ∉ (wScene.undo).core.currentScene ∧
    (wScene.undo).undoStack = [] := by
  obtain ⟨h1, h2, h3, h4⟩ := C1_undo_restores_saved_state wScene [] [1] rfl
    (by decide) (by decide) (by decide) (by decide)
  exact ⟨(h1 1 (by decide) (by decide)).1, h2 0 (by decide) (by decide), h4⟩

/-- C2 counterexample: the claim fails as stated — the scene holds a node
with ID `A1` whose `AddToScene` flag is unset and the undo stack holds an
empty saved collection; `Undo()` removes the node (performing work) but
`Redo()` cannot add it back, so the pre-undo ID set `[A1]` is not
restored. -/
theorem C2_counterexample :
    cexSceneC2.undoStack ≠ [] ∧
    sceneIDs cexSceneC2.core = ["A1"] ∧
    sceneIDs ((cexSceneC2.undo).redo).core = [] := by decide

/-- C2 (amended): for every scene whose undo stack is non-empty and whose
current collection and top undo entry hold well-formed nodes, `Undo()` pushes
onto the redo stack an entry carrying exactly the pre-undo scene's IDs,
`Redo()` pushes back onto the undo stack an entry carrying the pre-redo
scene's IDs, and the `Undo()`-then-`Redo()` round trip restores the set of
node IDs that was current before the `Undo()`. -/
theorem C2_undo_redo_roundtrip (s : Scene) (us : List (List Nat)) (top : List Nat)
    (hstack : s.undoStack = us ++ [top])
    (hWFc : WFL s.core.heap s.core.currentScene) (hWFt : WFL s.core.heap top)
    (hbc : ∀ x ∈ s.core.currentScene, x < s.core.nextPtr)
    (hbt : ∀ x ∈ top, x < s.core.nextPtr) :
    (∃ e, (s.undo).redoStack = s.redoStack ++ [e] ∧
      e.map (fun x => idKey ((s.undo).core.heap x)) =
        s.core.currentScene.map (fun x => idKey (s.core.heap x))) ∧
    (∃ e2, ((s.undo).redo).undoStack = us ++ [e2] ∧
      e2.map (fun x => idKey (((s.undo).redo).core.heap x)) =
        (s.undo).core.currentScene.map (fun x => idKey ((s.undo).core.heap x))) ∧
    (∀ k, (∃ x ∈ ((s.undo).redo).core.currentScene,
        idKey (((s.undo).redo).core.heap x) = k) ↔
      (∃ x ∈ s.core.currentScene, idKey (s.core.heap x) = k)) := by
  have hne : s.undoStack ≠ [] := by rw [hstack]; simp
  obtain ⟨q1, q2, q3, q4, q5, q6, q7, q8, t1, e1, emap, eWF, eBnd⟩ :=
    restore_spec s.core us s.redoStack top hWFc hWFt hbc hbt
  rw [← hstack] at e1 q1
  have hne2 : (restoreStacks s.core s.undoStack s.redoStack).2.2 ≠ [] := by
    rw [e1]
    simp
  have hur := scene_undo_redo_unfold s hne hne2
  have hu := scene_undo_unfold s hne
  rw [hur, hu]
  dsimp only
  rw [q1, e1, hstack]
  obtain ⟨w1, w2, w3, w4, w5, w6, w7, w8, t2, f1, fmap, fWF, fBnd⟩ :=
    restore_spec (restoreStacks s.core (us ++ [top]) s.redoStack).1 s.redoStack us t1
      q3 eWF q4 eBnd
  refine ⟨⟨t1, rfl, emap⟩, ⟨t2, f1, fmap⟩, ?_⟩
  intro k
  rw [w5 k]
  constructor
  · rintro ⟨p, hp, hk⟩
    have hmem : k ∈ t1.map (fun x =>
        idKey ((restoreStacks s.core (us ++ [top]) s.redoStack).1.heap x)) :=
      List.mem_map.mpr ⟨p, hp, hk⟩
    rw [emap] at hmem
    obtain ⟨x, hx, hxk⟩ := List.mem_map.mp hmem
    exact ⟨x, hx, hxk⟩
  · rintro ⟨x, hx, hxk⟩
    have hmem : k ∈ s.core.currentScene.map (fun x => idKey (s.core.heap x)) :=
      List.mem_map.mpr ⟨x, hx, hxk⟩
    rw [← emap] at hmem
    obtain ⟨p, hp, hpk⟩ := List.mem_map.mp hmem
    exact ⟨p, hp, hpk⟩

/-- C2 witness: in the concrete scene `wScene`, `Undo()` then `Redo()`
restores the presence of ID `A1` and the absence of ID `B1`. -/
theorem C2_witness :
    ((∃ x ∈ ((wScene.undo).redo).core.currentScene,
        idKey (((wScene.undo).redo).core.heap x) = "A1") ↔
      (∃ x ∈ wScene.core.currentScene, idKey (wScene.core.heap x) = "A1")) ∧
    ((∃ x ∈ ((wScene.undo).redo).core.currentScene,
        idKey (((wScene.undo).redo).core.heap x) = "B1") ↔
      (∃ x ∈ wScene.core.currentScene, idKey (wScene.core.heap x) = "B1")) := by
  obtain ⟨h1, h2, h3⟩ := C2_undo_redo_roundtrip wScene [] [1] rfl
    (by decide) (by decide) (by decide) (by decide)
  exact ⟨h3 "A1", h3 "B1"⟩

/-! ### Claim C3: the scene ID invariant -/

theorem SceneInv_uniq {c : SceneCore} (h : SceneInv c) :
    ∀ p q, p ∈ c.currentScene → q ∈ c.currentScene →
      idKey (c.heap p) = idKey (c.heap q) → p = q := by
  intro p q hp hq hk
  by_contra hne
  have hsymm : Symmetric (fun a b : Nat => a ≠ b → idKey (c.heap a) ≠ idKey (c.heap b)) := by
    intro a b hab hba hk2
    exact hab (Ne.symm hba) hk2.symm
  exact h.2.1.forall hsymm hp hq hne hne hk

theorem SceneInv_removeNode (c : SceneCore) (p : Nat) (h : SceneInv c) :
    SceneInv (removeNode c p) := by
  obtain ⟨h1, h2, h3⟩ := h
  obtain ⟨hh, hs, hn, -, -⟩ := removeNode_fields c p
  unfold SceneInv
  rw [hh, hs, hn]
  exact ⟨fun x hx => h1 x (List.mem_of_mem_erase hx),
    List.Pairwise.sublist (List.erase_sublist p c.currentScene) h2,
    fun x hx => h3 x (List.mem_of_mem_erase hx)⟩

theorem SceneInv_append (c d : SceneCore) (p : Nat)
    (h : SceneInv c) (hp : p < c.nextPtr) (hpn : p ∉ c.currentScene)
    (hs : d.currentScene = c.currentScene ++ [p])
    (hn : d.nextPtr = c.nextPtr)
    (hhx : ∀ x, x ≠ p → d.heap x = c.heap x)
    (hid : (d.heap p).id ≠ none) (hkey : idKey (d.heap p) ≠ "")
    (hfree : ∀ x ∈ c.currentScene, idKey (c.heap x) ≠ idKey (d.heap p)) :
    SceneInv d := by
  obtain ⟨h1, h2, h3⟩ := h
  unfold SceneInv
  rw [hs, hn]
  refine ⟨?_, ?_, ?_⟩
  · intro x hx
    rcases List.mem_append.mp hx with hx2 | hx2
    · have hxp : x ≠ p := fun he => hpn (he ▸ hx2)
      rw [hhx x hxp]
      exact h1 x hx2
    · rw [List.mem_singleton.mp hx2]
      exact ⟨hid, hkey⟩
  · rw [List.pairwise_append]
    refine ⟨?_, List.pairwise_singleton _ _, ?_⟩
    · refine List.Pairwise.imp_of_mem ?_ h2
      intro a b ha hb hr hne
      have hap : a ≠ p := fun he => hpn (he ▸ ha)
      have hbp : b ≠ p := fun he => hpn (he ▸ hb)
      rw [hhx a hap, hhx b hbp]
      exact hr hne
    · intro a ha b hb
      rw [List.mem_singleton.mp hb]
      intro hne
      have hap : a ≠ p := hne
      rw [hhx a hap]
      exact hfree a ha
  · intro x hx
    rcases List.mem_append.mp hx with hx2 | hx2
    · exact h3 x hx2
    · rw [List.mem_singleton.mp hx2]
      exact hp

theorem addNodeFinish_goodID (c : SceneCore) (p : Nat) {i : String}
    (hid : (c.heap p).id = some i) (hne : (i == "") = false)
    (hfree : (getNodeByID c (some i)).isSome = false) :
    addNodeFinish c p =
      ({ c with heap := fun x => if x = p then nameFix (c.heap p) else c.heap x,
                currentScene := c.currentScene ++ [p] }, some p) := by
  unfold addNodeFinish
  simp only [hid, hne, hfree, Bool.or_self, Bool.false_eq_true, if_false]

theorem addNodeFinish_badID (c : SceneCore) (p : Nat)
    (hbad : (c.heap p).id = none ∨
      ∃ i, (c.heap p).id = some i ∧ (i = "" ∨ getNodeByID c (some i) ≠ none)) :
    (addNodeFinish c p).1.currentScene = c.currentScene ++ [p] ∧
    (addNodeFinish c p).1.nextPtr = c.nextPtr ∧
    (∀ x, x ≠ p → (addNodeFinish c p).1.heap x = c.heap x) ∧
    (addNodeFinish c p).1.heap p = nameFix { c.heap p with id := some ((c.heap p).className ++
      toString (getUniqueIDIndexByClassFromIndex c (c.heap p).className
        ((mapFind c.uniqueIDByClass (c.heap p).className).getD 1))) } ∧
    (addNodeFinish c p).1.uniqueIDByClass = mapInsert (c.heap p).className
      (getUniqueIDIndexByClassFromIndex c (c.heap p).className
        ((mapFind c.uniqueIDByClass (c.heap p).className).getD 1) + 1) c.uniqueIDByClass ∧
    (addNodeFinish c p).2 = some p ∧
    (idKey (c.heap p) ≠ (c.heap p).className ++
        toString (getUniqueIDIndexByClassFromIndex c (c.heap p).className
          ((mapFind c.uniqueIDByClass (c.heap p).className).getD 1)) →
      (addNodeFinish c p).1.referencedIDChanges =
        mapInsert (idKey (c.heap p)) ((c.heap p).className ++
          toString (getUniqueIDIndexByClassFromIndex c (c.heap p).className
            ((mapFind c.uniqueIDByClass (c.heap p).className).getD 1)))
          c.referencedIDChanges) := by
  have hb : (match (c.heap p).id with
      | none => true
      | some i => i == "" || (getNodeByID c (some i)).isSome) = true := by
    rcases hbad with h0 | ⟨i, hi, hcase⟩
    · rw [h0]
    · rw [hi]
      rcases hcase with he | ht
      · simp [he]
      · simp [(Option.ne_none_iff_isSome.mp ht)]
  refine ⟨?_, ?_, ?_, ?_, ?_, ?_, ?_⟩
  all_goals simp only [addNodeFinish, getUniqueIDIndexByClass, hb, if_true]
  all_goals first
    | rfl
    | (split <;> rfl)
    | (intro x hx; simp only [hx, if_false]; split <;> simp [hx])
    | (intro hch; rw [if_pos hch])

theorem SceneInv_addNodeFinish_bad (c : SceneCore) (p : Nat)
    (h : SceneInv c) (hp : p < c.nextPtr) (hpn : p ∉ c.currentScene)
    (hbad : (c.heap p).id = none ∨
      ∃ i, (c.heap p).id = some i ∧ (i = "" ∨ getNodeByID c (some i) ≠ none)) :
    SceneInv (addNodeFinish c p).1 := by
  obtain ⟨h1, h2, h3, h4, -, -, -⟩ := addNodeFinish_badID c p hbad
  refine SceneInv_append c _ p h hp hpn h1 h2 h3 ?_ ?_ ?_
  · rw [h4, (nameFix_fields _).1]
    simp
  · rw [h4, idKey_nameFix]
    exact candidate_ne_empty _ _
  · intro x hx
    rw [h4, idKey_nameFix]
    have hfree := (uniqueIDIndexFromIndex_spec c (c.heap p).className
      ((mapFind c.uniqueIDByClass (c.heap p).className).getD 1)).2.1
    rw [getNodeByID_eq_none_iff] at hfree
    exact hfree x hx

theorem SceneInv_addNodeFinish (c : SceneCore) (p : Nat)
    (h : SceneInv c) (hp : p < c.nextPtr) (hpn : p ∉ c.currentScene) :
    SceneInv (addNodeFinish c p).1 := by
  rcases hid : (c.heap p).id with _ | i
  · exact SceneInv_addNodeFinish_bad c p h hp hpn (Or.inl hid)
  · by_cases hie : i = ""
    · exact SceneInv_addNodeFinish_bad c p h hp hpn (Or.inr ⟨i, hid, Or.inl hie⟩)
    · by_cases hlk : getNodeByID c (some i) = none
      · have hne : (i == "") = false := beq_eq_false_iff_ne.mpr hie
        have hfree : (getNodeByID c (some i)).isSome = false := by rw [hlk]; rfl
        have heq := addNodeFinish_goodID c p hid hne hfree
        rw [heq]
        refine SceneInv_append c _ p h hp hpn ?_ ?_ ?_ ?_ ?_ ?_
        · rfl
        · rfl
        · intro x hx
          show (if x = p then nameFix (c.heap p) else c.heap x) = c.heap x
          rw [if_neg hx]
        · show (if p = p then nameFix (c.heap p) else c.heap p).id ≠ none
          rw [if_pos rfl, (nameFix_fields _).1, hid]
          simp
        · show idKey (if p = p then nameFix (c.heap p) else c.heap p) ≠ ""
          rw [if_pos rfl, idKey_nameFix]
          have hkey : idKey (c.heap p) = i := by unfold idKey; rw [hid]; rfl
          rw [hkey]
          exact hie
        · intro x hx
          show idKey (c.heap x) ≠ idKey (if p = p then nameFix (c.heap p) else c.heap p)
          rw [if_pos rfl, idKey_nameFix]
          have hkey : idKey (c.heap p) = i := by unfold idKey; rw [hid]; rfl
          rw [hkey]
          rw [getNodeByID_eq_none_iff] at hlk
          exact hlk x hx
      · exact SceneInv_addNodeFinish_bad c p h hp hpn (Or.inr ⟨i, hid, Or.inr hlk⟩)

theorem addNewNode_eq (c : SceneCore) (n : Node) :
    addNewNode c n =
      (addNode { c with heap := fun x => if x = c.nextPtr then n else c.heap x,
                        nextPtr := c.nextPtr + 1 } c.nextPtr).1 := rfl

theorem SceneInv_addNewNode (c : SceneCore) (n : Node)
    (hsing : n.singletonTag ≠ none → n.id = none) (h : SceneInv c) :
    SceneInv (addNewNode c n) := by
  rw [addNewNode_eq]
  set p := c.nextPtr with hpdef
  set c1 : SceneCore := { c with heap := fun x => if x = p then n else c.heap x,
                                 nextPtr := p + 1 } with hc1
  have hcp : c1.heap p = n := by simp [hc1]
  have hcx : ∀ x, x ≠ p → c1.heap x = c.heap x := by
    intro x hx
    simp [hc1, hx]
  have hscene : c1.currentScene = c.currentScene := rfl
  have hnext : c1.nextPtr = p + 1 := rfl
  have hmem : ∀ x ∈ c.currentScene, x ≠ p := by
    intro x hx he
    have := h.2.2 x hx
    omega
  have hinv1 : SceneInv c1 := by
    obtain ⟨h1, h2, h3⟩ := h
    refine ⟨?_, ?_, ?_⟩
    · intro x hx
      rw [hscene] at hx
      rw [hcx x (hmem x hx)]
      exact h1 x hx
    · rw [hscene]
      refine List.Pairwise.imp_of_mem ?_ h2
      intro a b ha hb hr hne
      rw [hcx a (hmem a ha), hcx b (hmem b hb)]
      exact hr hne
    · intro x hx
      rw [hscene] at hx
      rw [hnext]
      have := h3 x hx
      omega
  have hpc1 : p < c1.nextPtr := by rw [hnext]; omega
  have hpnc1 : p ∉ c1.currentScene := by
    rw [hscene]
    intro hmm
    exact hmem p hmm rfl
  by_cases hflag : n.addToScene = true
  · have hred : addNode c1 p = addNodeNoNotify c1 p := by
      unfold addNode
      rw [hcp, hflag]
      simp
    rw [hred]
    rcases hst : n.singletonTag with _ | tag
    · have hred2 : addNodeNoNotify c1 p = addNodeFinish c1 p := by
        simp only [addNodeNoNotify, hcp, hflag, hst, Bool.not_true, Bool.false_eq_true, if_false,
          if_true]
      rw [hred2]
      exact SceneInv_addNodeFinish c1 p hinv1 hpc1 hpnc1
    · have hidn : n.id = none := hsing (by rw [hst]; simp)
      rcases hfs : findSingleton c1 n with _ | sn
      · have hred2 : addNodeNoNotify c1 p = addNodeFinish c1 p := by
          simp only [addNodeNoNotify, hcp, hflag, hst, hfs, Bool.not_true, Bool.false_eq_true,
            if_false, if_true]
        rw [hred2]
        exact SceneInv_addNodeFinish c1 p hinv1 hpc1 hpnc1
      · have hsnmem : sn ∈ c1.currentScene := List.mem_of_find?_eq_some hfs
        have hsnp : sn ≠ p := by
          rw [hscene] at hsnmem
          exact hmem sn hsnmem
        have hred2 : addNodeNoNotify c1 p =
            (removeNodeReferences
              { c1 with
                heap := fun x => if x = sn then copyWithScene n (c1.heap sn) else c1.heap x }
              p,
             some sn) := by
          simp only [addNodeNoNotify, hcp, hflag, hst, hfs, Bool.not_true, Bool.false_eq_true,
            if_false, if_true]
        rw [hred2]
        set d0 : SceneCore :=
          { c1 with
            heap := fun x => if x = sn then copyWithScene n (c1.heap sn) else c1.heap x }
          with hd0
        have hcid : (copyWithScene n (c1.heap sn)).id = (c.heap sn).id := by
          have hf := (copyWithScene_fields n (c1.heap sn)).2.2
          rw [hidn] at hf
          rw [hf, hcx sn hsnp]
        have hsame : ∀ x ∈ c.currentScene, (d0.heap x).id = (c.heap x).id := by
          intro x hx
          show (if x = sn then copyWithScene n (c1.heap sn) else c1.heap x).id = (c.heap x).id
          by_cases hxsn : x = sn
          · rw [if_pos hxsn, hcid, hxsn]
          · rw [if_neg hxsn, hcx x (hmem x hx)]
        have hkeq : ∀ x ∈ c.currentScene, idKey (d0.heap x) = idKey (c.heap x) := by
          intro x hx
          unfold idKey
          rw [hsame x hx]
        have hd0inv : SceneInv d0 := by
          obtain ⟨h1, h2, h3⟩ := h
          refine ⟨?_, ?_, ?_⟩
          · intro x hx
            have hx2 : x ∈ c.currentScene := hx
            constructor
            · rw [hsame x hx2]
              exact (h1 x hx2).1
            · rw [hkeq x hx2]
              exact (h1 x hx2).2
          · show List.Pairwise _ d0.currentScene
            have hds : d0.currentScene = c.currentScene := rfl
            rw [hds]
            refine List.Pairwise.imp_of_mem ?_ h2
            intro a b ha hb hr hne
            rw [hkeq a ha, hkeq b hb]
            exact hr hne
          · intro x hx
            have hx2 : x ∈ c.currentScene := hx
            have hb := h3 x hx2
            show x < d0.nextPtr
            have hd0n : d0.nextPtr = p + 1 := rfl
            omega
        exact hd0inv
  · have hf : n.addToScene = false := by
      revert hflag
      cases n.addToScene <;> simp
    have hred : addNode c1 p = (c1, none) := by
      unfold addNode
      rw [hcp, hf]
      simp
    rw [hred]
    exact hinv1

/-- C3 counterexample: the claim fails as stated — from the empty scene, adding
a node with ID `B7`, then a fresh singleton of class `A`, then a singleton of
class `A` arriving with ID `B7`, reaches a scene whose `AddNode` singleton
merge copies the incoming ID onto the merged node: two distinct nodes in the
collection both carry the non-empty ID `B7`, and `GetNodeByID("B7")` can name
only one of them. -/
theorem C3_counterexample :
    Reachable c3CexScene ∧
    0 ∈ c3CexScene.currentScene ∧ 1 ∈ c3CexScene.currentScene ∧
    (c3CexScene.heap 0).id = some "B7" ∧ (c3CexScene.heap 1).id = some "B7" ∧
    getNodeByID c3CexScene (some "B7") = some 1 := by
  refine ⟨?_, by decide, by decide, by decide, by decide, by decide⟩
  exact Reachable.add _ nodeSingB7
    (Reachable.add _ nodeSingNoId (Reachable.add _ nodeB7 Reachable.empty))

/-- C3 (amended): in every scene state reachable from the empty scene by
`AddNode` (restricted to the application's discipline that a node carrying a
singleton tag is added freshly created, with NULL ID) and `RemoveNode`,
distinct nodes in the collection have distinct non-empty IDs, and
`GetNodeByID` returns NULL on NULL input, returns the node whose ID equals the
query exactly when one is present, and returns NULL exactly when no node in
the scene carries the queried ID. -/
theorem C3_safe_invariant (c : SceneCore) (h : ReachableSafe c) :
    SceneInv c ∧
    getNodeByID c none = none ∧
    (∀ (i : String) (p : Nat), getNodeByID c (some i) = some p ↔
      p ∈ c.currentScene ∧ idKey (c.heap p) = i) ∧
    (∀ i : String, getNodeByID c (some i) = none ↔
      ∀ p ∈ c.currentScene, idKey (c.heap p) ≠ i) := by
  have hinv : SceneInv c := by
    induction h with
    | empty => exact ⟨by simp [emptyCore], by simp [emptyCore], by simp [emptyCore]⟩
    | add s n hn hs ih => exact SceneInv_addNewNode s n hn ih
    | remove s p hs ih => exact SceneInv_removeNode s p ih
  exact ⟨hinv, getNodeByID_none c,
    fun i p => getNodeByID_eq_some_iff (SceneInv_uniq hinv) i p,
    fun i => getNodeByID_eq_none_iff c i⟩

/-- C3 witness: the one-node scene reached by safely adding `nodeB7` satisfies
the invariant, and `GetNodeByID("B7")` finds the node. -/
theorem C3_witness :
    ReachableSafe c3WitScene ∧ getNodeByID c3WitScene (some "B7") = some 0 := by
  have hr : ReachableSafe c3WitScene :=
    ReachableSafe.add emptyCore nodeB7 (by decide) ReachableSafe.empty
  exact ⟨hr, ((C3_safe_invariant c3WitScene hr).2.2.1 "B7" 0).mpr ⟨by decide, by decide⟩⟩

/-! ### Claim C4: `AddNode` storage and fresh-ID assignment -/

/-- C4 counterexample: the claim fails as stated — `singNodeNew` has its
`AddToScene` flag set, yet `AddNode` does not store it: the singleton scan
finds the matching in-scene singleton at pointer 0, merges into it and returns
it, leaving the collection without the new node. -/
theorem C4_counterexample :
    (c4CexCore.heap 1).addToScene = true ∧
    (addNode c4CexCore 1).1.currentScene = [0] ∧
    (addNode c4CexCore 1).2 = some 0 ∧
    1 ∉ (addNode c4CexCore 1).1.currentScene := by decide

/-- C4 (amended): for a node outside the singleton-merge path (no singleton
tag, or no matching in-scene singleton): with `AddToScene` unset, `AddNode`
returns NULL and leaves the scene unchanged; with it set, the node is appended
to the collection and returned, a NULL, empty or already-used ID is replaced
by a fresh one built from the class name and the smallest unused index at or
above the per-class hint — recording the old-to-new change when the old key
differs — and an ID that is none of those is kept. -/
theorem C4_addNode_spec (c : SceneCore) (p : Nat)
    (hcase : (c.heap p).singletonTag = none ∨ findSingleton c (c.heap p) = none) :
    ((c.heap p).addToScene = false → addNode c p = (c, none)) ∧
    ((c.heap p).addToScene = true →
      (addNode c p).1.currentScene = c.currentScene ++ [p] ∧
      (addNode c p).2 = some p ∧
      (((c.heap p).id = none ∨ (c.heap p).id = some "" ∨
          getNodeByID c ((c.heap p).id) ≠ none) →
        ∃ idx : Nat,
          ((addNode c p).1.heap p).id = some ((c.heap p).className ++ toString idx) ∧
          (mapFind c.uniqueIDByClass (c.heap p).className).getD 1 ≤ idx ∧
          getNodeByID c (some ((c.heap p).className ++ toString idx)) = none ∧
          (∀ j, (mapFind c.uniqueIDByClass (c.heap p).className).getD 1 ≤ j → j < idx →
            getNodeByID c (some ((c.heap p).className ++ toString j)) ≠ none) ∧
          (idKey (c.heap p) ≠ (c.heap p).className ++ toString idx →
            (addNode c p).1.referencedIDChanges =
              mapInsert (idKey (c.heap p)) ((c.heap p).className ++ toString idx)
                c.referencedIDChanges)) ∧
      (((c.heap p).id ≠ none ∧ (c.heap p).id ≠ some "" ∧
          getNodeByID c ((c.heap p).id) = none) →
        ((addNode c p).1.heap p).id = (c.heap p).id)) := by
  constructor
  · intro hf
    unfold addNode
    rw [hf]
    simp
  · intro hflag
    have hred : addNode c p = addNodeFinish c p := by
      rcases hcase with hst | hfs
      · simp only [addNode, addNodeNoNotify, hflag, hst, Bool.not_true, Bool.false_eq_true,
          if_false]
      · rcases hstc : (c.heap p).singletonTag with _ | tag
        · simp only [addNode, addNodeNoNotify, hflag, hstc, Bool.not_true, Bool.false_eq_true,
            if_false]
        · simp only [addNode, addNodeNoNotify, hflag, hstc, hfs, Bool.not_true,
            Bool.false_eq_true, if_false]
    rw [hred]
    by_cases hbadc : (c.heap p).id = none ∨ (c.heap p).id = some "" ∨
        getNodeByID c ((c.heap p).id) ≠ none
    · have hbad : (c.heap p).id = none ∨
          ∃ i, (c.heap p).id = some i ∧ (i = "" ∨ getNodeByID c (some i) ≠ none) := by
        rcases hbadc with h0 | h0 | h0
        · exact Or.inl h0
        · exact Or.inr ⟨"", h0, Or.inl rfl⟩
        · rcases hi : (c.heap p).id with _ | i
          · exact Or.inl rfl
          · rw [hi] at h0
            exact Or.inr ⟨i, rfl, Or.inr h0⟩
      obtain ⟨h1, -, -, h4, -, h6, h7⟩ := addNodeFinish_badID c p hbad
      refine ⟨h1, h6, ?_, ?_⟩
      · intro _
        refine ⟨getUniqueIDIndexByClassFromIndex c (c.heap p).className
          ((mapFind c.uniqueIDByClass (c.heap p).className).getD 1), ?_, ?_, ?_, ?_, h7⟩
        · rw [h4, (nameFix_fields _).1]
        · exact (uniqueIDIndexFromIndex_spec c (c.heap p).className _).1
        · exact (uniqueIDIndexFromIndex_spec c (c.heap p).className _).2.1
        · exact fun j hj1 hj2 =>
            (uniqueIDIndexFromIndex_spec c (c.heap p).className _).2.2 j hj1 hj2
      · rintro ⟨hg1, hg2, hg3⟩
        exact absurd hbadc (by push_neg; exact ⟨hg1, hg2, hg3⟩)
    · push_neg at hbadc
      obtain ⟨hg1, hg2, hg3⟩ := hbadc
      obtain ⟨i, hi⟩ := Option.ne_none_iff_exists'.mp hg1
      have hie : i ≠ "" := by
        intro he
        rw [he] at hi
        exact hg2 hi
      have hne : (i == "") = false := beq_eq_false_iff_ne.mpr hie
      have hfr : (getNodeByID c (some i)).isSome = false := by
        rw [hi] at hg3
        rw [hg3]
        rfl
      have heq := addNodeFinish_goodID c p hi hne hfr
      rw [heq]
      refine ⟨rfl, rfl, ?_, ?_⟩
      · intro hcon
        exact absurd hcon (by push_neg; exact ⟨hg1, hg2, hg3⟩)
      · intro _
        show (if p = p then nameFix (c.heap p) else c.heap p).id = (c.heap p).id
        rw [if_pos rfl, (nameFix_fields _).1]

/-- C4 witness: adding the ID-less `c4WitNode` of class `A` to the scene
already holding ID `A1` stores it and assigns the fresh ID `A2` (index 2 is
the smallest free index at or above the hint 1). -/
theorem C4_witness :
    (addNode c4WitCore 1).1.currentScene = [0, 1] ∧
    ((addNode c4WitCore 1).1.heap 1).id = some "A2" ∧
    (addNode c4WitCore 1).2 = some 1 := by
  obtain ⟨h0, h1⟩ := C4_addNode_spec c4WitCore 1 (Or.inl (by decide))
  obtain ⟨hs, hret, hbad, hgood⟩ := h1 (by decide)
  obtain ⟨idx, hid, hge, hfree, hleast, hch⟩ := hbad (Or.inl (by decide))
  have h2free : getNodeByID c4WitCore (some ((c4WitCore.heap 1).className ++ toString 2)) =
      none := by decide
  have h1taken : getNodeByID c4WitCore (some ((c4WitCore.heap 1).className ++ toString 1)) ≠
      none := by decide
  have hidx : idx = 2 := by
    rcases Nat.lt_or_ge idx 3 with hlt | hge3
    · have hne1 : idx ≠ 1 := by
        intro he
        rw [he] at hfree
        exact h1taken hfree
      have hhint : (mapFind c4WitCore.uniqueIDByClass (c4WitCore.heap 1).className).getD 1 =
          1 := by decide
      rw [hhint] at hge
      omega
    · exact absurd (hleast 2 (by decide) (by omega)) (by simp [h2free])
  rw [hidx] at hid
  refine ⟨by rw [hs]; rfl, by rw [hid]; decide, hret⟩

/-! ### Claim C8: singleton merge and the singleton invariant -/

theorem nameFix_className (n : Node) : (nameFix n).className = n.className := by
  unfold nameFix
  split <;> rfl

theorem addNodeFinish_frame (c : SceneCore) (p : Nat) :
    (addNodeFinish c p).1.currentScene = c.currentScene ++ [p] ∧
    (addNodeFinish c p).1.nextPtr = c.nextPtr ∧
    (∀ x, x ≠ p → (addNodeFinish c p).1.heap x = c.heap x) ∧
    ((addNodeFinish c p).1.heap p).className = (c.heap p).className ∧
    ((addNodeFinish c p).1.heap p).singletonTag = (c.heap p).singletonTag := by
  refine ⟨?_, ?_, ?_, ?_, ?_⟩
  all_goals simp only [addNodeFinish, getUniqueIDIndexByClass]
  · split
    · split <;> rfl
    · rfl
  · split
    · split <;> rfl
    · rfl
  · intro x hx
    simp only [hx, if_false]
    split
    · split <;> simp [hx]
    · rfl
  · simp only [if_true]
    rw [nameFix_className]
    split <;> rfl
  · simp only [if_true]
    rw [(nameFix_fields _).2.2]
    split <;> rfl

theorem findSingleton_some_facts {c : SceneCore} {n : Node} {sn : Nat}
    (h : findSingleton c n = some sn) :
    sn ∈ c.currentScene ∧ (c.heap sn).className = n.className ∧
    ∃ t, n.singletonTag = some t ∧ (c.heap sn).singletonTag = some t := by
  have h2 : c.currentScene.find? (fun q =>
      isA (c.heap q) n.className &&
        match (c.heap q).singletonTag, n.singletonTag with
        | some a, some b => a == b
        | _, _ => false) = some sn := h
  have hmem : sn ∈ c.currentScene := List.mem_of_find?_eq_some h2
  have hp0 := List.find?_some h2
  have hp : (isA (c.heap sn) n.className &&
      match (c.heap sn).singletonTag, n.singletonTag with
      | some a, some b => a == b
      | _, _ => false) = true := hp0
  rw [Bool.and_eq_true] at hp
  obtain ⟨hisa, hmatch⟩ := hp
  have hcl : (c.heap sn).className = n.className := by
    unfold isA at hisa
    exact eq_of_beq hisa
  refine ⟨hmem, hcl, ?_⟩
  rcases h1 : (c.heap sn).singletonTag with _ | a
  · rw [h1] at hmatch
    rcases h2 : n.singletonTag with _ | b <;> rw [h2] at hmatch <;> simp at hmatch
  · rw [h1] at hmatch
    rcases h2 : n.singletonTag with _ | b
    · rw [h2] at hmatch
      simp at hmatch
    · rw [h2] at hmatch
      have hab : a = b := by simpa using hmatch
      exact ⟨b, rfl, by rw [hab]⟩

theorem findSingleton_none_facts {c : SceneCore} {n : Node}
    (h : findSingleton c n = none) :
    ∀ q ∈ c.currentScene, (c.heap q).className = n.className →
      ∀ a t, (c.heap q).singletonTag = some a → n.singletonTag = some t → a ≠ t := by
  intro q hq hcl a t hqa hnt hat
  have h2 : c.currentScene.find? (fun q =>
      isA (c.heap q) n.className &&
        match (c.heap q).singletonTag, n.singletonTag with
        | some a, some b => a == b
        | _, _ => false) = none := h
  have hfn := List.find?_eq_none.mp h2 q hq
  apply hfn
  rw [Bool.and_eq_true]
  constructor
  · unfold isA
    exact beq_iff_eq.mpr hcl
  · rw [hqa, hnt]
    simp [hat]

theorem reachable_bounds_singletonInv (c : SceneCore) (h : Reachable c) :
    (∀ x ∈ c.currentScene, x < c.nextPtr) ∧ SingletonInv c := by
  induction h with
  | empty =>
    exact ⟨by simp [emptyCore], by simp [SingletonInv, emptyCore]⟩
  | remove s p hs ih =>
    obtain ⟨hb, hsi⟩ := ih
    obtain ⟨hh, hscn, hn, -, -⟩ := removeNode_fields s p
    constructor
    · intro x hx
      rw [hscn] at hx
      rw [hn]
      exact hb x (List.mem_of_mem_erase hx)
    · unfold SingletonInv
      rw [hh, hscn]
      exact List.Pairwise.sublist (List.erase_sublist p s.currentScene) hsi
  | add s n hs ih =>
    obtain ⟨hb, hsi⟩ := ih
    rw [addNewNode_eq]
    set p := s.nextPtr with hpdef
    set c1 : SceneCore := { s with heap := fun x => if x = p then n else s.heap x,
                                   nextPtr := p + 1 } with hc1
    have hcp : c1.heap p = n := by simp [hc1]
    have hcx : ∀ x, x ≠ p → c1.heap x = s.heap x := by
      intro x hx
      simp [hc1, hx]
    have hmem : ∀ x ∈ s.currentScene, x ≠ p := by
      intro x hx he
      have := hb x hx
      omega
    have hb1 : ∀ x ∈ c1.currentScene, x < c1.nextPtr := by
      intro x hx
      have hx2 : x ∈ s.currentScene := hx
      have := hb x hx2
      show x < p + 1
      omega
    have hsi1 : SingletonInv c1 := by
      show List.Pairwise _ c1.currentScene
      have hcs : c1.currentScene = s.currentScene := rfl
      rw [hcs]
      refine List.Pairwise.imp_of_mem ?_ hsi
      intro a b ha hb2 hr hne
      rw [hcx a (hmem a ha), hcx b (hmem b hb2)]
      exact hr hne
    by_cases hflag : n.addToScene = true
    · have hred : addNode c1 p = addNodeNoNotify c1 p := by
        unfold addNode
        rw [hcp, hflag]
        simp
      rw [hred]
      obtain ⟨f1, f2, f3, f4, f5⟩ := addNodeFinish_frame c1 p
      rcases hstc : n.singletonTag with _ | tag
      · have hred2 : addNodeNoNotify c1 p = addNodeFinish c1 p := by
          simp only [addNodeNoNotify, hcp, hflag, hstc, Bool.not_true, Bool.false_eq_true,
            if_false, if_true]
        rw [hred2]
        constructor
        · intro x hx
          rw [f1] at hx
          rw [f2]
          rcases List.mem_append.mp hx with hx2 | hx2
          · exact hb1 x hx2
          · rw [List.mem_singleton.mp hx2]
            show p < p + 1
            omega
        · show List.Pairwise _ (addNodeFinish c1 p).1.currentScene
          rw [f1]
          rw [List.pairwise_append]
          refine ⟨?_, List.pairwise_singleton _ _, ?_⟩
          · refine List.Pairwise.imp_of_mem ?_ hsi1
            intro a b ha hb2 hr hne
            rw [f3 a (hmem a ha), f3 b (hmem b hb2)]
            exact hr hne
          · intro a ha b hb2 hne
            rw [List.mem_singleton.mp hb2] at hne ⊢
            rintro ⟨-, htagne, htageq⟩
            rw [f5, hcp, hstc] at htageq
            exact htagne htageq
      · rcases hfs : findSingleton c1 n with _ | sn
        · have hred2 : addNodeNoNotify c1 p = addNodeFinish c1 p := by
            simp only [addNodeNoNotify, hcp, hflag, hstc, hfs, Bool.not_true, Bool.false_eq_true,
              if_false, if_true]
          rw [hred2]
          constructor
          · intro x hx
            rw [f1] at hx
            rw [f2]
            rcases List.mem_append.mp hx with hx2 | hx2
            · exact hb1 x hx2
            · rw [List.mem_singleton.mp hx2]
              show p < p + 1
              omega
          · show List.Pairwise _ (addNodeFinish c1 p).1.currentScene
            rw [f1]
            rw [List.pairwise_append]
            refine ⟨?_, List.pairwise_singleton _ _, ?_⟩
            · refine List.Pairwise.imp_of_mem ?_ hsi1
              intro a b ha hb2 hr hne
              rw [f3 a (hmem a ha), f3 b (hmem b hb2)]
              exact hr hne
            · intro a ha b hb2 hne
              rw [List.mem_singleton.mp hb2] at hne ⊢
              rintro ⟨hcleq, htagne, htageq⟩
              have hap : a ≠ p := hmem a ha
              rw [f3 a hap] at hcleq htagne htageq
              rw [f4, hcp] at hcleq
              rw [f5, hcp, hstc] at htageq
              rcases hta : (c1.heap a).singletonTag with _ | av
              · rw [hta] at htagne
                exact htagne rfl
              · rw [hta] at htageq
                have hav : av = tag := by
                  have := htageq
                  injection this
                have hcl1 : (c1.heap a).className = n.className := hcleq
                exact (findSingleton_none_facts hfs a ha hcl1 av tag hta hstc) hav
        · obtain ⟨hsnmem, hsncl, t, hnt, hsnt⟩ := findSingleton_some_facts hfs
          have hsnp : sn ≠ p := hmem sn hsnmem
          have hred2 : addNodeNoNotify c1 p =
              (removeNodeReferences
                { c1 with
                  heap := fun x => if x = sn then copyWithScene n (c1.heap sn) else c1.heap x }
                p,
               some sn) := by
            simp only [addNodeNoNotify, hcp, hflag, hstc, hfs, Bool.not_true, Bool.false_eq_true,
              if_false, if_true]
          rw [hred2]
          set d0 : SceneCore :=
            { c1 with
              heap := fun x => if x = sn then copyWithScene n (c1.heap sn) else c1.heap x }
            with hd0
          have hcltag : ∀ x ∈ s.currentScene,
              (d0.heap x).className = (s.heap x).className ∧
              (d0.heap x).singletonTag = (s.heap x).singletonTag := by
            intro x hx
            have hxp : x ≠ p := hmem x hx
            show (if x = sn then copyWithScene n (c1.heap sn) else c1.heap x).className =
                (s.heap x).className ∧
              (if x = sn then copyWithScene n (c1.heap sn) else c1.heap x).singletonTag =
                (s.heap x).singletonTag
            by_cases hxsn : x = sn
            · subst hxsn
              rw [if_pos rfl]
              constructor
              · rw [show (copyWithScene n (c1.heap x)).className = n.className from rfl,
                  ← hsncl, hcx x hxp]
              · rw [show (copyWithScene n (c1.heap x)).singletonTag = n.singletonTag from rfl,
                  hnt, ← hcx x hxp, hsnt]
            · rw [if_neg hxsn, hcx x hxp]
              exact ⟨rfl, rfl⟩
          constructor
          · intro x hx
            have hx2 : x ∈ s.currentScene := hx
            have := hb x hx2
            show x < p + 1
            omega
          · show List.Pairwise _ ((removeNodeReferences d0 p).currentScene)
            have hcs2 : (removeNodeReferences d0 p).currentScene = s.currentScene := rfl
            rw [hcs2]
            refine List.Pairwise.imp_of_mem ?_ hsi
            intro a b ha hb2 hr hne
            obtain ⟨hac, hat⟩ := hcltag a ha
            obtain ⟨hbc, hbt⟩ := hcltag b hb2
            show ¬((d0.heap a).className = (d0.heap b).className ∧
                (d0.heap a).singletonTag ≠ none ∧
                (d0.heap a).singletonTag = (d0.heap b).singletonTag)
            rw [hac, hat, hbc, hbt]
            exact hr hne
    · have hf : n.addToScene = false := by
        revert hflag
        cases n.addToScene <;> simp
      have hred : addNode c1 p = (c1, none) := by
        unfold addNode
        rw [hcp, hf]
        simp
      rw [hred]
      exact ⟨hb1, hsi1⟩

/-- C8 counterexample: the claim fails as stated — `c8CexNode` carries a
non-NULL singleton tag matching the in-scene singleton at pointer 0, but its
`AddToScene` flag is unset, so `AddNode` returns NULL (not the matching
singleton) and copies nothing into it. -/
theorem C8_counterexample :
    (c8CexCore.heap 1).singletonTag = some "S" ∧
    (c8CexCore.heap 0).singletonTag = some "S" ∧
    (c8CexCore.heap 0).className = (c8CexCore.heap 1).className ∧
    0 ∈ c8CexCore.currentScene ∧
    (addNode c8CexCore 1).2 = none ∧
    (addNode c8CexCore 1).1.heap 0 = c8CexCore.heap 0 := by
  refine ⟨by decide, by decide, by decide, by decide, by decide, rfl⟩

/-- C8 (amended): for a node at `p` whose `AddToScene` flag is set, when the
singleton scan finds a matching in-scene node `sn` (same class, equal
non-NULL singleton tag), `AddNode` returns `sn`, leaves the collection
unchanged (no new item), copies the incoming node's contents into `sn`
(`CopyWithSceneWithSingleModifiedEvent`), and removes the incoming node's
entries from the reference-tracking lists (`RemoveNodeReferences`); and every
scene reachable by `AddNode`/`RemoveNode` from the empty scene satisfies the
singleton-uniqueness invariant: no two distinct nodes share a class and a
non-NULL singleton tag. -/
theorem C8_singleton_spec (c : SceneCore) (p sn : Nat)
    (hflag : (c.heap p).addToScene = true)
    (hfs : findSingleton c (c.heap p) = some sn)
    (d : SceneCore) (hd : Reachable d) :
    (addNode c p).2 = some sn ∧
    (addNode c p).1 = removeNodeReferences
      { c with heap := fun x =>
          if x = sn then copyWithScene (c.heap p) (c.heap sn) else c.heap x } p ∧
    (addNode c p).1.currentScene = c.currentScene ∧
    (addNode c p).1.heap sn = copyWithScene (c.heap p) (c.heap sn) ∧
    (∀ x, x ≠ sn → (addNode c p).1.heap x = c.heap x) ∧
    SingletonInv d := by
  obtain ⟨-, -, t, htag, -⟩ := findSingleton_some_facts hfs
  have hred : addNode c p =
      (removeNodeReferences
        { c with heap := fun x =>
            if x = sn then copyWithScene (c.heap p) (c.heap sn) else c.heap x } p,
       some sn) := by
    simp only [addNode, addNodeNoNotify, hflag, htag, hfs, Bool.not_true, Bool.false_eq_true,
      if_false, if_true]
  refine ⟨by rw [hred], congrArg Prod.fst hred, ?_, ?_, ?_,
    (reachable_bounds_singletonInv d hd).2⟩
  · rw [hred]
    rfl
  · rw [hred]
    show (if sn = sn then copyWithScene (c.heap p) (c.heap sn) else c.heap sn) =
      copyWithScene (c.heap p) (c.heap sn)
    rw [if_pos rfl]
  · intro x hx
    rw [hred]
    show (if x = sn then copyWithScene (c.heap p) (c.heap sn) else c.heap x) = c.heap x
    rw [if_neg hx]

/-- C8 witness: adding the fresh singleton `singNodeNew` to the scene holding
the matching singleton `singNodeA` at pointer 0 merges into it and returns
pointer 0, and the empty scene satisfies the singleton invariant. -/
theorem C8_witness :
    (addNode c4CexCore 1).2 = some 0 ∧
    (addNode c4CexCore 1).1.heap 0 = copyWithScene (c4CexCore.heap 1) (c4CexCore.heap 0) ∧
    (addNode c4CexCore 1).1.currentScene = c4CexCore.currentScene ∧
    SingletonInv emptyCore := by
  obtain ⟨h1, h2, h3, h4, h5, h6⟩ := C8_singleton_spec c4CexCore 1 0 (by decide) (by decide)
    emptyCore Reachable.empty
  exact ⟨h1, h4, h3, h6⟩

end MRML
